import Mathlib

/-!
Verification development for the Image-API repository (Next.js image upload /
listing / deletion service with a product-page scraper).

The definitions below are a shallow embedding of the TypeScript route handlers
under `src/app/api/`:

  * `src/app/api/upload/route.ts`       (multi-file upload endpoint)
  * `src/app/api/images/route.ts`       (listing, get-by-name cascade, delete)
  * `src/app/api/extract-url/route.ts`  (LimeRoad product-page scraper)

JavaScript strings are modelled as Lean `String` (lists of characters);
machine effects (filesystem, network) are modelled by explicit state passing
(lists of stored names, an association-list metadata map) and by small
environment records carrying the outcome of each external call.  `Math.random`
style randomness (`randomBytes(8).toString('hex')`) is passed in as an
explicit argument.  JavaScript exceptions that the source catches are modelled
by `Option`/explicit outcome values.
-/

/-! ## JavaScript string primitives

Each helper mirrors one JS string/`path` operation used by the routes, on
`List Char` so that proofs can proceed by list induction. -/

/-- Characters compare for JS `===`; Lean `=` on `Char` coincides. -/
abbrev Str := List Char

/-- JS `String.prototype.split` with a single-character separator:
`"a_b".split("_") = ["a","b"]`, `"".split("_") = [""]`, `"_".split("_") = ["",""]`. -/
def splitCharL (c : Char) : Str → List Str
  | [] => [[]]
  | x :: xs =>
    match splitCharL c xs with
    | [] => if x = c then [[], []] else [[x]]
    | h :: t => if x = c then [] :: h :: t else (x :: h) :: t

/-- JS `Array.prototype.join(sep)` for a list of strings. -/
def joinWithL (sep : Str) : List Str → Str
  | [] => []
  | [x] => x
  | x :: xs => x ++ sep ++ joinWithL sep xs

/-- JS `String.prototype.includes` (substring containment; empty needle matches). -/
def containsL (hay needle : Str) : Bool :=
  match hay with
  | [] => needle = []
  | x :: xs => needle.isPrefixOf (x :: xs) || containsL xs needle

/-- JS `String.prototype.startsWith`. -/
def startsWithL (s pre : Str) : Bool :=
  pre.isPrefixOf s

/-- JS `String.prototype.endsWith`. -/
def endsWithL (s post : Str) : Bool :=
  post.isSuffixOf s

/-- JS `String.prototype.toLowerCase` (ASCII range; all names used are ASCII). -/
def toLowerL (s : Str) : Str := s.map Char.toLower

/-- JS `String.prototype.trim` (leading and trailing whitespace removed). -/
def trimL (s : Str) : Str :=
  ((s.dropWhile Char.isWhitespace).reverse.dropWhile Char.isWhitespace).reverse

/-- JS `String.prototype.replace` with a plain-string pattern replaces only the
first occurrence; with an empty pattern the string is returned unchanged for an
empty replacement (the only way the routes use it). -/
def replaceOnceL (s pat rep : Str) : Str :=
  if pat = [] then s
  else match s with
    | [] => []
    | x :: xs =>
      if pat.isPrefixOf (x :: xs) then rep ++ (x :: xs).drop pat.length
      else x :: replaceOnceL xs pat rep

/-- JS global replacement of one character by a string (used for the
dash-to-space and underscore-to-space global regex replacements). -/
def replaceCharL (c : Char) (rep : Str) : Str → Str
  | [] => []
  | x :: xs => (if x = c then rep else [x]) ++ replaceCharL c rep xs

/-- Global replacement of a maximal run of 2-or-more underscores by a single
underscore, i.e. JS `replace(/_{2,}/g, "_")`.  Collapsing every underscore run
to one underscore is equivalent because single underscores are untouched; the
boolean tracks whether the previous character was an underscore. -/
def collapseUnderscoresA (prevU : Bool) : Str → Str
  | [] => []
  | x :: xs =>
    if x = '_' then
      if prevU then collapseUnderscoresA true xs
      else '_' :: collapseUnderscoresA true xs
    else x :: collapseUnderscoresA false xs

/-- Entry point of the underscore-run collapse. -/
def collapseUnderscoresL (s : Str) : Str := collapseUnderscoresA false s

/-- The character map of JS `replace(/[^a-zA-Z0-9.-]/g, "_")`. -/
def sanitizeChar (c : Char) : Char :=
  if ('a' ≤ c ∧ c ≤ 'z') ∨ ('A' ≤ c ∧ c ≤ 'Z') ∨ ('0' ≤ c ∧ c ≤ '9') ∨ c = '.' ∨ c = '-'
  then c else '_'

/-- The last `/`-separated segment of a path (`p.split("/").pop()`), used with
the JS `|| pathname` fallback: when the last segment is empty the whole
pathname is used instead. -/
def lastSegmentL (p : Str) : Str :=
  let seg := (splitCharL '/' p).getLast!
  if seg = [] then p else seg

/-- Node `path.extname`: the final extension of the last path segment.  The
extension starts at the last dot of the segment provided that dot is not the
segment's first character; otherwise the extension is empty. -/
def pathExtnameL (p : Str) : Str :=
  let base := (splitCharL '/' p).getLast!
  let (revExt, rest) := base.reverse.span (· ≠ '.')
  match rest with
  | [] => []
  | _ :: before => if before = [] then [] else '.' :: revExt.reverse

/-- Node `path.basename(p, ext)`: the last path segment with a matching
extension suffix stripped (not stripped when the whole segment equals the
extension). -/
def pathBasenameL (p ext : Str) : Str :=
  let base := (splitCharL '/' p).getLast!
  if ext ≠ [] ∧ base ≠ ext ∧ ext.isSuffixOf base then base.take (base.length - ext.length)
  else base

/-! String-level wrappers (the route code manipulates JS strings). -/

def splitChar (c : Char) (s : String) : List String :=
  (splitCharL c s.data).map List.asString

def joinWith (sep : String) (xs : List String) : String :=
  (joinWithL sep.data (xs.map String.data)).asString

def strContains (hay needle : String) : Bool := containsL hay.data needle.data

def strStartsWith (s pre : String) : Bool := startsWithL s.data pre.data

def strEndsWith (s post : String) : Bool := endsWithL s.data post.data

def strToLower (s : String) : String := (toLowerL s.data).asString

def strTrim (s : String) : String := (trimL s.data).asString

def strReplaceOnce (s pat rep : String) : String :=
  (replaceOnceL s.data pat.data rep.data).asString

def strReplaceChar (c : Char) (rep : String) (s : String) : String :=
  (replaceCharL c rep.data s.data).asString

def lastSegment (p : String) : String := (lastSegmentL p.data).asString

def pathExtname (p : String) : String := (pathExtnameL p.data).asString

def pathBasename (p ext : String) : String := (pathBasenameL p.data ext.data).asString

/-- JS truthiness for an optional string field: `undefined` and `""` are falsy. -/
def jsTruthy : Option String → Bool
  | none => false
  | some s => s ≠ ""

/-! ## Shared constants and the metadata map

Both route files declare the same allow-lists
(`src/app/api/upload/route.ts:22-24`, `src/app/api/images/route.ts:19`). -/

def ALLOWED_TYPES : List String := ["image/jpeg", "image/jpg", "image/png", "image/webp"]

def ALLOWED_EXTENSIONS : List String := [".jpg", ".jpeg", ".png", ".webp"]

def MAX_FILE_SIZE : Nat := 10 * 1024 * 1024

/-- The `ImageMetadata` record (`interface ImageMetadata`).  Optional fields
are `Option String`; `none` models an absent property (as produced by
`JSON.stringify` dropping `undefined` values). -/
structure ImageMetadata where
  filename : String
  productUrl : Option String := none
  productName : Option String := none
  productDescription : Option String := none
  productImageUrl : Option String := none
deriving DecidableEq, Repr

/-- The metadata document `Record<string, ImageMetadata>`, as an association
list preserving JS object key insertion order (which `Object.keys` and
`Object.values` iterate in). -/
abbrev MetadataMap := List (String × ImageMetadata)

/-- JS `obj[k] = v`: replace in place when the key exists, else append. -/
def setKey : MetadataMap → String → ImageMetadata → MetadataMap
  | [], k, v => [(k, v)]
  | (k', v') :: t, k, v =>
    if k' = k then (k, v) :: t else (k', v') :: setKey t k v

/-- JS `obj[k]` as an optional lookup (first binding wins; `setKey` keeps keys
unique so this is the binding). -/
def getKey : MetadataMap → String → Option ImageMetadata
  | [], _ => none
  | (k', v') :: t, k => if k' = k then some v' else getKey t k

/-- JS `delete obj[k]`. -/
def eraseKey : MetadataMap → String → MetadataMap
  | [], _ => []
  | (k', v') :: t, k => if k' = k then t else (k', v') :: eraseKey t k

/-! ## Upload endpoint (`src/app/api/upload/route.ts`) -/

/-- `sanitizeFilename` (upload route lines 33-38): strip disallowed characters
to `_`, collapse underscore runs, lowercase. -/
def sanitizeFilename (filename : String) : String :=
  (toLowerL (collapseUnderscoresL (filename.data.map sanitizeChar))).asString

/-- `generateUniqueFilename` (upload route lines 40-46).  The random suffix
`randomBytes(8).toString("hex")` is passed in explicitly. -/
def generateUniqueFilename (originalName : String) (randomSuffix : String) : String :=
  let ext := pathExtname originalName
  let baseName := pathBasename originalName ext
  let sanitized := sanitizeFilename baseName
  sanitized ++ "_" ++ randomSuffix ++ ext

/-- `extractProductName` (upload route lines 48-65 and the identical copy in
`src/app/api/images/route.ts` lines 26-43): drop the trailing
underscore-separated random suffix and join the remaining parts with spaces,
falling back to the whole base name. -/
def extractProductName (filename : String) : String :=
  let ext := pathExtname filename
  let baseName := pathBasename filename ext
  let parts := splitChar '_' baseName
  if parts.length > 1 then
    let joined := strTrim (joinWith " " parts.dropLast)
    if joined = "" then baseName else joined
  else baseName

/-- One file of a multipart upload request, together with the outcome of the
per-file effects: the hex suffix drawn by `randomBytes` and whether writing
the bytes (plus, locally, persisting metadata) succeeds. -/
structure UploadFile where
  name : String
  mimeType : String
  size : Nat
  hexSuffix : String
  storeOk : Bool
deriving DecidableEq, Repr

/-- A successfully uploaded file as accumulated in `uploadedFiles`. -/
structure UploadedEntry where
  filename : String
  productName : String
  productUrl : Option String
deriving DecidableEq, Repr

/-- The upload route's per-file validation (upload route lines 182-207): a file
passes when its MIME type or its filename extension is on the allow-list, and
its size is positive and within the cap. -/
def fileTypeOk (f : UploadFile) : Bool :=
  let fileType := strToLower f.mimeType
  let fileExt := strToLower (pathExtname f.name)
  ALLOWED_TYPES.contains fileType ||
    (fileType = "" && ALLOWED_EXTENSIONS.contains fileExt) ||
    ALLOWED_EXTENSIONS.contains fileExt

/-- The validation/storage outcome of one file in the upload loop (lines
173-285, local branch).  `Sum.inl` is a stored file, `Sum.inr` the error
message pushed onto `errors`. -/
def processOneFile (productUrl : Option String) (f : UploadFile) :
    Sum (UploadedEntry × String × ImageMetadata) String :=
  let fileType := strToLower f.mimeType
  let fileExt := strToLower (pathExtname f.name)
  if ¬ fileTypeOk f then
    .inr (f.name ++ ": Invalid file type (MIME: " ++
      (if fileType = "" then "unknown" else fileType) ++ ", Ext: " ++ fileExt ++
      "). Only JPG, PNG, and WEBP are allowed.")
  else if f.size > MAX_FILE_SIZE then
    .inr (f.name ++ ": File size exceeds 10MB limit.")
  else if f.size = 0 then
    .inr (f.name ++ ": File is empty.")
  else if ¬ f.storeOk then
    .inr (f.name ++ ": Failed to save file - write error")
  else
    let uniqueFilename := generateUniqueFilename f.name f.hexSuffix
    let productName := extractProductName uniqueFilename
    let recUrl := match productUrl with
      | some u => if strTrim u ≠ "" then some (strTrim u) else none
      | none => none
    .inl (⟨uniqueFilename, productName, recUrl⟩,
      uniqueFilename,
      { filename := uniqueFilename, productUrl := recUrl, productName := some productName })

/-- The upload loop over all files: accumulates `uploadedFiles`, `errors`, and
the metadata map updated record-by-record (each successful file re-loads and
re-saves the metadata document; sequentially that is iterated `setKey`). -/
def processFiles (productUrl : Option String) (meta : MetadataMap) :
    List UploadFile → List UploadedEntry × List String × MetadataMap
  | [] => ([], [], meta)
  | f :: fs =>
    match processOneFile productUrl f with
    | .inl (entry, key, recd) =>
      let (ups, errs, meta') := processFiles productUrl (setKey meta key recd) fs
      (entry :: ups, errs, meta')
    | .inr msg =>
      let (ups, errs, meta') := processFiles productUrl meta fs
      (ups, msg :: errs, meta')

/-- The JSON envelope returned by the upload route. -/
inductive UploadResponse where
  | err (status : Nat) (message : String) (errors : List String)
  | ok (uploaded : Nat) (files : List String) (errors : List String)
deriving DecidableEq, Repr

/-- `POST /api/upload` (upload route lines 151-316, local branch): validate and
store each file independently, then answer 400 when nothing was stored and a
success envelope listing the stored names and per-file errors otherwise. -/
def uploadPost (files : List UploadFile) (productUrl : Option String)
    (meta : MetadataMap) : UploadResponse × MetadataMap :=
  if files.length = 0 then (.err 400 "No files provided" [], meta)
  else
    let (ups, errs, meta') := processFiles productUrl meta files
    if ups.length = 0 then (.err 400 "No files were uploaded" errs, meta')
    else (.ok ups.length (ups.map (·.filename)) errs, meta')

/-! ## Images endpoint (`src/app/api/images/route.ts` and the filename/info
route variants concatenated in that file) -/

/-- `isValidImageFile` (images route lines 21-24). -/
def isValidImageFile (filename : String) : Bool :=
  ALLOWED_EXTENSIONS.contains (strToLower (pathExtname filename))

/-- Record used for `metadata[file] || {}`: the empty JS object (its fields are
all absent; only the optional fields are ever read from it). -/
def emptyMetadata : ImageMetadata :=
  { filename := "" }

/-- JS object spread `{ ...a, ...b }` for two metadata records: a field of `b`
that is present (not `undefined`) overrides the field of `a`. -/
def mergeRecords (a b : ImageMetadata) : ImageMetadata :=
  { filename := b.filename
    productUrl := match b.productUrl with | some v => some v | none => a.productUrl
    productName := match b.productName with | some v => some v | none => a.productName
    productDescription :=
      match b.productDescription with | some v => some v | none => a.productDescription
    productImageUrl :=
      match b.productImageUrl with | some v => some v | none => a.productImageUrl }

/-- Case-insensitive literal prefix: returns the matched original characters
and the remainder when the start of `l` equals `pat` up to ASCII case. -/
def ciPrefixSplit (pat l : Str) : Option (Str × Str) :=
  if toLowerL (l.take pat.length) = toLowerL pat ∧ pat.length ≤ l.length then
    some (l.take pat.length, l.drop pat.length)
  else none

/-- Character class of the URL regex body `[^\s\)]+`: anything but whitespace
and a closing parenthesis. -/
def urlBodyChar (c : Char) : Bool :=
  ¬ c.isWhitespace ∧ c ≠ ')'

/-- One attempt of the description URL regex at the current position: the JS
pattern is `https` with an optional (greedy) `s`, then `://`, then one or more
`urlBodyChar`s, all case-insensitive; returns the matched text. -/
def httpMatchAt (l : Str) : Option Str :=
  match ciPrefixSplit "http".data l with
  | none => none
  | some (m1, r1) =>
    let withS : Option Str :=
      match r1 with
      | [] => none
      | c :: r2 =>
        if c.toLower = 's' then
          match ciPrefixSplit "://".data r2 with
          | none => none
          | some (m3, r3) =>
            let body := r3.takeWhile urlBodyChar
            if body = [] then none else some (m1 ++ c :: m3 ++ body)
        else none
    match withS with
    | some m => some m
    | none =>
      match ciPrefixSplit "://".data r1 with
      | none => none
      | some (m3, r3) =>
        let body := r3.takeWhile urlBodyChar
        if body = [] then none else some (m1 ++ m3 ++ body)

/-- Leftmost match of the description URL regex (JS
`description.match(` the `https?` URL pattern `)` at images route line 346):
try every start position from the left. -/
def scanHttpUrl : Str → Option Str
  | [] => none
  | x :: xs =>
    match httpMatchAt (x :: xs) with
    | some m => some m
    | none => scanHttpUrl xs

/-- String-level wrapper for the description URL match. -/
def matchUrlInText (s : String) : Option String :=
  (scanHttpUrl s.data).map List.asString

/-- Per-file filesystem facts used by the listing for display fields: the
default description built from the file's mtime (locale-dependent, supplied by
the environment) and the ISO timestamp. -/
structure FileStat where
  defaultDescription : String
  uploadedAt : Option String
deriving DecidableEq, Repr

/-- An element of the `images` array returned by `GET /api/images`. -/
structure ImageEntry where
  filename : String
  productName : String
  title : String
  productUrl : Option String
  productImageUrl : String
  description : String
  uploadedAt : Option String
deriving DecidableEq, Repr

/-- `getProductImageUrl` (images route lines 45-58): `origin` stands for the
request-derived `protocol://host` pair. -/
def getProductImageUrl (origin filename : String) : String :=
  origin ++ "/api/images/" ++ filename

/-- The base-name reconciliation search of the listing (images route lines
297-308): the first metadata key whose underscore-separated base (all parts
except the trailing random suffix) equals the file's base. -/
def findMatchingKey (meta : MetadataMap) (baseParts : List String) : Option String :=
  (meta.map Prod.fst).find? fun key =>
    let keyExt := pathExtname key
    let keyBaseName := strReplaceOnce key keyExt ""
    let keyParts := splitChar '_' keyBaseName
    if keyParts.length > 1 ∧ baseParts.length > 1 then
      joinWith "_" keyParts.dropLast = joinWith "_" baseParts.dropLast
    else false

/-- The cross-reference by product name (images route lines 323-327): the first
metadata record sharing the normalized product name and carrying a URL. -/
def findEntryByProductName (meta : MetadataMap) (productName : String) : Option ImageMetadata :=
  (meta.map Prod.snd).find? fun e =>
    jsTruthy e.productName &&
      strTrim (strToLower (e.productName.getD "")) = strTrim (strToLower productName) &&
      jsTruthy e.productUrl

/-- One listing entry (images route lines 278-375, local branch): metadata
lookup, base-name reconciliation, product-name cross-reference, and last-resort
URL extraction from the description text.  The opportunistic metadata saves in
that code do not feed back into the returned entry, so the entry is a pure
function of the initially loaded map. -/
def entryFor (meta : MetadataMap) (origin : String) (stat : FileStat)
    (file : String) : ImageEntry :=
  let ext := strToLower (pathExtname file)
  let fm0 := (getKey meta file).getD emptyMetadata
  let fm1 :=
    if ¬ jsTruthy fm0.productUrl then
      let baseName := strReplaceOnce file ext ""
      let baseParts := splitChar '_' baseName
      if baseParts.length > 1 then
        match findMatchingKey meta baseParts with
        | some k =>
          match getKey meta k with
          | some rec2 => if jsTruthy rec2.productUrl then mergeRecords fm0 rec2 else fm0
          | none => fm0
        | none => fm0
      else fm0
    else fm0
  let productName :=
    if jsTruthy fm1.productName then fm1.productName.getD "" else extractProductName file
  let productUrl0 : Option String := if jsTruthy fm1.productUrl then fm1.productUrl else none
  let productUrl1 :=
    match productUrl0 with
    | some u => some u
    | none =>
      if productName ≠ "" then
        match findEntryByProductName meta productName with
        | some e => e.productUrl
        | none => none
      else none
  let productUrl2 :=
    match productUrl1 with
    | some u => some u
    | none =>
      let description :=
        if jsTruthy fm1.productDescription then fm1.productDescription.getD ""
        else stat.defaultDescription
      match matchUrlInText description with
      | some m => some (strTrim m)
      | none => none
  let title0 := strTrim (strReplaceChar '_' " " (strReplaceOnce file ext ""))
  let title := if title0 = "" then "Untitled Image" else title0
  let description :=
    if jsTruthy fm1.productDescription then fm1.productDescription.getD ""
    else stat.defaultDescription
  { filename := file
    productName := productName
    title := title
    productUrl := productUrl2
    productImageUrl := getProductImageUrl origin file
    description := description
    uploadedAt := stat.uploadedAt }

/-- The unsorted listing body (images route lines 275-377): directory entries
filtered by extension, each mapped to its enriched entry. -/
def listImagesEntries (meta : MetadataMap) (origin : String)
    (stats : String → FileStat) (files : List String) : List ImageEntry :=
  (files.filter isValidImageFile).map fun f => entryFor meta origin (stats f) f

/-- A stable insertion sort, modelling `Array.prototype.sort` (stable per the
ECMAScript spec). -/
def jsInsert (le : ImageEntry → ImageEntry → Bool) (x : ImageEntry) :
    List ImageEntry → List ImageEntry
  | [] => [x]
  | y :: ys => if le x y then x :: y :: ys else y :: jsInsert le x ys

/-- Stable sort by repeated insertion. -/
def jsSortBy (le : ImageEntry → ImageEntry → Bool) : List ImageEntry → List ImageEntry
  | [] => []
  | x :: xs => jsInsert le x (jsSortBy le xs)

/-- `GET /api/images` (local branch), with the final sort by title (line 380;
`localeCompare` is modelled by the standard string order, which only permutes
the list and does not change its membership). -/
def listImages (meta : MetadataMap) (origin : String)
    (stats : String → FileStat) (files : List String) : List ImageEntry :=
  jsSortBy (fun a b => decide (a.title ≤ b.title)) (listImagesEntries meta origin stats files)

/-! ### The get-by-name matching cascade

`GET /api/images/{filename}` and `GET /api/images/{filename}/info` share the
same staged search over all blob pathnames (images route lines 779-833 and
575-634). -/

/-- `blobFilename` as computed in every stage: the last pathname segment with
the `|| b.pathname` fallback. -/
def blobFilename (b : String) : String := lastSegment b

/-- Stage predicates of the cascade, in source order.  `filename` is the raw
route parameter and `decodedFilename` its `decodeURIComponent`. -/
def stageMatch (filename decodedFilename : String) : Nat → String → Bool
  | 0, b =>
    let bf := blobFilename b
    bf = decodedFilename || bf = filename
  | 1, b =>
    let bf := blobFilename b
    strToLower bf = strToLower decodedFilename
  | 2, b =>
    let bf := blobFilename b
    let requestParts := splitChar '-' decodedFilename
    let requestBaseName :=
      if requestParts.length > 1 then joinWith "-" requestParts.dropLast
      else (splitChar '.' decodedFilename).headD ""
    let blobParts := splitChar '-' bf
    let blobBaseName :=
      if blobParts.length > 1 then joinWith "-" blobParts.dropLast
      else (splitChar '.' bf).headD ""
    blobBaseName = requestBaseName || strToLower blobBaseName = strToLower requestBaseName
  | 3, b =>
    let bf := blobFilename b
    let requestBaseName := (splitChar '.' decodedFilename).headD ""
    let blobBaseName := (splitChar '.' bf).headD ""
    strContains blobBaseName requestBaseName || strContains requestBaseName blobBaseName ||
      strContains bf decodedFilename || strContains decodedFilename bf
  | _, b =>
    strEndsWith b decodedFilename || strEndsWith b filename

/-- The staged lookup exactly as written in the source: each later stage runs
only when the earlier ones found no blob. -/
def findBlobCascade (filename decodedFilename : String) (blobs : List String) :
    Option String :=
  match blobs.find? (stageMatch filename decodedFilename 0) with
  | some b => some b
  | none =>
    match blobs.find? (stageMatch filename decodedFilename 1) with
    | some b => some b
    | none =>
      match blobs.find? (stageMatch filename decodedFilename 2) with
      | some b => some b
      | none =>
        match blobs.find? (stageMatch filename decodedFilename 3) with
        | some b => some b
        | none => blobs.find? (stageMatch filename decodedFilename 4)

/-- Response of the byte-serving and delete routes. -/
inductive ServeResponse where
  | err (status : Nat) (message : String)
  | okFile (filename : String)
deriving DecidableEq, Repr

/-- `GET /api/images/{filename}` local branch (filename route lines 868-906):
serve the decoded name when present, fall back to the raw name, else 404. -/
def serveImageLocal (filename decodedFilename : String) (files : List String) :
    ServeResponse :=
  if filename = "" then .err 400 "Filename required"
  else if ¬ ALLOWED_EXTENSIONS.contains (strToLower (pathExtname filename)) then
    .err 400 "Invalid file type"
  else if files.contains decodedFilename then .okFile decodedFilename
  else if files.contains filename then .okFile filename
  else .err 404 "File not found"

/-- `DELETE /api/images/{filename}` local branch (filename route lines
987-1009): unlink the file and drop the metadata record under the same key. -/
def deleteImageLocal (filename : String) (files : List String) (meta : MetadataMap) :
    ServeResponse × List String × MetadataMap :=
  if filename = "" then (.err 400 "Filename required", files, meta)
  else if ¬ ALLOWED_EXTENSIONS.contains (strToLower (pathExtname filename)) then
    (.err 400 "Invalid file type", files, meta)
  else if ¬ files.contains filename then (.err 404 "File not found", files, meta)
  else
    let meta' := match getKey meta filename with
      | some _ => eraseKey meta filename
      | none => meta
    (.okFile filename, files.erase filename, meta')

/-- `DELETE /api/images/{filename}` blob branch (filename route lines 937-979):
find the blob by exact decoded, exact raw, or case-insensitive name, delete it,
and drop the metadata record keyed by the raw parameter. -/
def deleteImageBlob (filename decodedFilename : String) (blobs : List String)
    (meta : MetadataMap) : ServeResponse × List String × MetadataMap :=
  if filename = "" then (.err 400 "Filename required", blobs, meta)
  else if ¬ ALLOWED_EXTENSIONS.contains (strToLower (pathExtname filename)) then
    (.err 400 "Invalid file type", blobs, meta)
  else
    match blobs.find? (fun b =>
        let bf := blobFilename b
        bf = decodedFilename || bf = filename ||
          strToLower bf = strToLower decodedFilename) with
    | none => (.err 404 "File not found in blob storage", blobs, meta)
    | some b =>
      let meta' := match getKey meta filename with
        | some _ => eraseKey meta filename
        | none => meta
      (.okFile b, blobs.erase b, meta')

/-! ## JSON values and `JSON.parse`

`loadMetadata` (upload route lines 82-116, images route lines 60-70,
extract-url route lines 760-794, local branch) feeds the raw document text to
`JSON.parse` and swallows every failure.  The grammar below is the full JSON
grammar; numbers keep their source text since their numeric value is never
used by the routes. -/

inductive Json where
  | null
  | bool (b : Bool)
  | num (raw : String)
  | str (s : String)
  | arr (elems : List Json)
  | obj (fields : List (String × Json))

/-- JSON insignificant whitespace. -/
def skipWs (s : Str) : Str :=
  s.dropWhile fun c => c = ' ' ∨ c = '\t' ∨ c = '\n' ∨ c = '\r'

/-- Hexadecimal digit value. -/
def hexVal (c : Char) : Option Nat :=
  if '0' ≤ c ∧ c ≤ '9' then some (c.toNat - '0'.toNat)
  else if 'a' ≤ c ∧ c ≤ 'f' then some (c.toNat - 'a'.toNat + 10)
  else if 'A' ≤ c ∧ c ≤ 'F' then some (c.toNat - 'A'.toNat + 10)
  else none

/-- JSON string body (the opening quote already consumed): handles the escape
sequences accepted by `JSON.parse` and rejects raw control characters. -/
def parseJString : Nat → Str → Option (Str × Str)
  | 0, _ => none
  | fuel + 1, s =>
    match s with
    | [] => none
    | '"' :: rest => some ([], rest)
    | '\\' :: e :: rest =>
      let cont := fun (c : Char) (r0 : Str) =>
        (parseJString fuel r0).map fun p => (c :: p.1, p.2)
      if e = '"' then cont '"' rest
      else if e = '\\' then cont '\\' rest
      else if e = '/' then cont '/' rest
      else if e = 'b' then cont (Char.ofNat 8) rest
      else if e = 'f' then cont (Char.ofNat 12) rest
      else if e = 'n' then cont '\n' rest
      else if e = 'r' then cont '\r' rest
      else if e = 't' then cont '\t' rest
      else if e = 'u' then
        match rest with
        | h1 :: h2 :: h3 :: h4 :: rest' =>
          match hexVal h1, hexVal h2, hexVal h3, hexVal h4 with
          | some a, some b, some c, some d =>
            cont (Char.ofNat (((a * 16 + b) * 16 + c) * 16 + d)) rest'
          | _, _, _, _ => none
        | _ => none
      else none
    | c :: rest =>
      if c.toNat < 32 then none
      else (parseJString fuel rest).map fun p => (c :: p.1, p.2)

/-- JSON number token (validated, kept as raw text). -/
def parseJNumber (s : Str) : Option (Str × Str) :=
  let (sign, s1) := match s with
    | '-' :: r => (['-'], r)
    | _ => (([] : Str), s)
  let intPart : Option (Str × Str) :=
    match s1 with
    | '0' :: r => some (['0'], r)
    | c :: r =>
      if '1' ≤ c ∧ c ≤ '9' then
        let ds := r.takeWhile Char.isDigit
        some (c :: ds, r.drop ds.length)
      else none
    | [] => none
  match intPart with
  | none => none
  | some (ip, s2) =>
    let frac : Option (Str × Str) :=
      match s2 with
      | '.' :: r =>
        let ds := r.takeWhile Char.isDigit
        if ds = [] then none else some ('.' :: ds, r.drop ds.length)
      | _ => some ([], s2)
    match frac with
    | none => none
    | some (fp, s3) =>
      let expo : Option (Str × Str) :=
        match s3 with
        | e :: r =>
          if e = 'e' ∨ e = 'E' then
            let (sg, r1) := match r with
              | '+' :: r' => (['+'], r')
              | '-' :: r' => (['-'], r')
              | _ => (([] : Str), r)
            let ds := r1.takeWhile Char.isDigit
            if ds = [] then none else some (e :: sg ++ ds, r1.drop ds.length)
          else some ([], s3)
        | [] => some ([], s3)
      match expo with
      | none => none
      | some (ep, s4) => some (sign ++ ip ++ fp ++ ep, s4)

mutual

/-- JSON value parser (fueled recursive descent). -/
def parseJValue : Nat → Str → Option (Json × Str)
  | 0, _ => none
  | fuel + 1, s =>
    match skipWs s with
    | [] => none
    | '{' :: rest => parseJFields fuel (skipWs rest) true
    | '[' :: rest => parseJElems fuel (skipWs rest) true
    | '"' :: rest => (parseJString fuel rest).map fun p => (.str p.1.asString, p.2)
    | 't' :: rest =>
      if "rue".data.isPrefixOf rest then some (.bool true, rest.drop 3) else none
    | 'f' :: rest =>
      if "alse".data.isPrefixOf rest then some (.bool false, rest.drop 4) else none
    | 'n' :: rest =>
      if "ull".data.isPrefixOf rest then some (.null, rest.drop 3) else none
    | s' => (parseJNumber s').map fun p => (.num p.1.asString, p.2)

/-- Object fields after the opening brace (`first` marks the position right
after the brace, where a closing brace is allowed). -/
def parseJFields : Nat → Str → Bool → Option (Json × Str)
  | 0, _, _ => none
  | fuel + 1, s, first =>
    match s with
    | '}' :: rest => if first then some (.obj [], rest) else none
    | '"' :: rest =>
      match parseJString fuel rest with
      | none => none
      | some (key, r1) =>
        match skipWs r1 with
        | ':' :: r2 =>
          match parseJValue fuel r2 with
          | none => none
          | some (v, r3) =>
            match skipWs r3 with
            | ',' :: r4 =>
              match parseJFields fuel (skipWs r4) false with
              | some (.obj fs, r5) => some (.obj ((key.asString, v) :: fs), r5)
              | _ => none
            | '}' :: r4 => some (.obj [(key.asString, v)], r4)
            | _ => none
        | _ => none
    | _ => none

/-- Array elements after the opening bracket. -/
def parseJElems : Nat → Str → Bool → Option (Json × Str)
  | 0, _, _ => none
  | fuel + 1, s, first =>
    match s with
    | ']' :: rest => if first then some (.arr [], rest) else none
    | _ =>
      match parseJValue fuel s with
      | none => none
      | some (v, r1) =>
        match skipWs r1 with
        | ',' :: r2 =>
          match parseJElems fuel (skipWs r2) false with
          | some (.arr vs, r3) => some (.arr (v :: vs), r3)
          | _ => none
        | ']' :: r2 => some (.arr [v], r2)
        | _ => none

end

/-- `JSON.parse`: a single JSON value with nothing but whitespace after it. -/
def parseJson (s : String) : Option Json :=
  match parseJValue (s.length + 4) s.data with
  | some (v, rest) => if skipWs rest = [] then some v else none
  | none => none

/-- Field access `obj.field` on a parsed JSON value (`undefined` otherwise). -/
def jsonField (v : Json) (key : String) : Option Json :=
  match v with
  | .obj fields => (fields.find? fun f => f.1 = key).map Prod.snd
  | _ => none

/-- JS truthiness of a parsed JSON value (used for `if (jsonLd.name)`). -/
def jsonTruthy : Option Json → Bool
  | none => false
  | some .null => false
  | some (.bool b) => b
  | some (.num raw) => raw ≠ "0" ∧ raw ≠ "-0"
  | some (.str s) => s ≠ ""
  | some (.arr _) => true
  | some (.obj _) => true

/-- `loadMetadata` (local branch): the parsed document when it exists and
parses, the empty object when it is absent, and — the `catch` branch — the
empty object again when `JSON.parse` throws on corrupt content. -/
def loadMetadata (doc : Option String) : Json :=
  match doc with
  | none => .obj []
  | some content =>
    match parseJson content with
    | some v => v
    | none => .obj []

/-! ## Extract-url endpoint (`src/app/api/extract-url/route.ts`, LimeRoad
variant, lines 730-1357) -/

/-- The `ProductDetails` interface of the scraper. -/
structure ProductDetails where
  productName : String
  productDescription : String
  productImageUrl : String
  productUrl : String
deriving DecidableEq, Repr

/-! ## A small regular-expression engine

The scraper's extraction cascade is a sequence of JS regex `match` calls.  The
engine below implements the JS backtracking semantics the patterns rely on:
leftmost start position, left-biased alternation, greedy and lazy repetition,
numbered capture groups, and the `i` flag.  Each source pattern is transcribed
node-by-node into this AST. -/

inductive RegexE where
  | emp
  | lit (c : Char)
  | cls (neg : Bool) (ranges : List (Char × Char))
  | seq (a b : RegexE)
  | alt (a b : RegexE)
  | star (greedy : Bool) (a : RegexE)
  | group (n : Nat) (a : RegexE)
  | eos

/-- Captured groups: group index paired with captured characters. -/
abbrev Caps := List (Nat × Str)

/-- Setting a capture (last write wins, as in JS). -/
def setCap (caps : Caps) (n : Nat) (v : Str) : Caps :=
  (n, v) :: caps.filter fun p => p.1 ≠ n

/-- Reading a capture. -/
def getCap (caps : Caps) (n : Nat) : Option Str :=
  (caps.find? fun p => p.1 = n).map Prod.snd

/-- Character comparison under the optional `i` flag (ASCII folding). -/
def chrEq (ci : Bool) (a b : Char) : Bool :=
  if ci then a.toLower = b.toLower else a = b

/-- Character-class membership under the optional `i` flag. -/
def clsMatch (ci : Bool) (neg : Bool) (ranges : List (Char × Char)) (c : Char) : Bool :=
  let inCls := ranges.any fun r =>
    (r.1 ≤ c ∧ c ≤ r.2) ∨ (ci ∧ r.1 ≤ c.toLower ∧ c.toLower ≤ r.2)
  if neg then ¬ inCls else inCls

/-- All ways a pattern can match a prefix of `s`, as `(remaining suffix,
captures)` pairs in backtracking priority order (head = what JS commits to). -/
def mtch (ci : Bool) : Nat → RegexE → Str → Caps → List (Str × Caps)
  | 0, _, _, _ => []
  | _ + 1, .emp, s, caps => [(s, caps)]
  | _ + 1, .lit c, s, caps =>
    match s with
    | [] => []
    | x :: xs => if chrEq ci x c then [(xs, caps)] else []
  | _ + 1, .cls neg rs, s, caps =>
    match s with
    | [] => []
    | x :: xs => if clsMatch ci neg rs x then [(xs, caps)] else []
  | fuel + 1, .seq a b, s, caps =>
    (mtch ci fuel a s caps).flatMap fun p => mtch ci fuel b p.1 p.2
  | fuel + 1, .alt a b, s, caps =>
    mtch ci fuel a s caps ++ mtch ci fuel b s caps
  | fuel + 1, .star greedy a, s, caps =>
    let iterate :=
      (mtch ci fuel a s caps).flatMap fun p =>
        if p.1.length < s.length then mtch ci fuel (.star greedy a) p.1 p.2 else []
    if greedy then iterate ++ [(s, caps)] else (s, caps) :: iterate
  | fuel + 1, .group n a, s, caps =>
    (mtch ci fuel a s caps).map fun p =>
      (p.1, setCap p.2 n (s.take (s.length - p.1.length)))
  | _ + 1, .eos, s, caps => if s = [] then [(s, caps)] else []

/-- Fuel that bounds the backtracking depth for a pattern over an input. -/
def regexSize : RegexE → Nat
  | .emp | .lit _ | .cls _ _ | .eos => 1
  | .seq a b | .alt a b => regexSize a + regexSize b + 1
  | .star _ a => regexSize a + 1
  | .group _ a => regexSize a + 1

/-- First match of the pattern starting exactly at `s` (with enough fuel). -/
def matchHere (ci : Bool) (r : RegexE) (s : Str) : Option (Str × Caps) :=
  (mtch ci ((regexSize r + 2) * (s.length + 2)) r s []).head?

/-- JS `String.prototype.match` for a non-global pattern: leftmost start
position wins; returns the text before the match, the full match, and the
captures. -/
def jsMatchSplit (ci : Bool) (r : RegexE) : Str → Option (Str × Str × Caps)
  | [] =>
    (matchHere ci r []).map fun p => ([], [], p.2)
  | x :: xs =>
    match matchHere ci r (x :: xs) with
    | some (rest, caps) =>
      some ([], (x :: xs).take ((x :: xs).length - rest.length), caps)
    | none => (jsMatchSplit ci r xs).map fun p => (x :: p.1, p.2.1, p.2.2)

/-- The match and its captures (dropping the position information). -/
def jsMatchFrom (ci : Bool) (r : RegexE) (s : Str) : Option (Str × Caps) :=
  (jsMatchSplit ci r s).map fun p => (p.2.1, p.2.2)

/-- The match object field `m[0]` (whole match). -/
def jsMatch0 (ci : Bool) (r : RegexE) (s : String) : Option String :=
  (jsMatchFrom ci r s.data).map fun p => p.1.asString

/-- The match object field `m[n]` for a capture group: `none` models JS
`undefined` (group absent from the pattern or unmatched). -/
def jsMatchG (ci : Bool) (r : RegexE) (s : String) (n : Nat) : Option String :=
  match jsMatchFrom ci r s.data with
  | none => none
  | some (_, caps) => (getCap caps n).map List.asString

/-- JS `String.prototype.replace` with a non-global regex: splice the
replacement over the leftmost match (no-op when there is no match). -/
def jsReplaceRegex (ci : Bool) (r : RegexE) (s rep : String) : String :=
  match jsMatchSplit ci r s.data with
  | none => s
  | some (pre, m, _) => (pre ++ rep.data ++ s.data.drop (pre.length + m.length)).asString

/-! Pattern combinators for transcribing the source regexes. -/

/-- Literal string pattern. -/
def rlit (s : String) : RegexE := s.data.foldr (fun c r => .seq (.lit c) r) .emp

/-- Sequencing a list of nodes. -/
def rseq (xs : List RegexE) : RegexE := xs.foldr .seq .emp

/-- Greedy `*`. -/
def rstar (r : RegexE) : RegexE := .star true r

/-- Greedy `+`. -/
def rplus (r : RegexE) : RegexE := .seq r (.star true r)

/-- Lazy `*?`. -/
def rlazy (r : RegexE) : RegexE := .star false r

/-- Positive character class from a list of single characters. -/
def rcls (cs : List Char) : RegexE := .cls false (cs.map fun c => (c, c))

/-- Negated character class from a list of single characters. -/
def rncls (cs : List Char) : RegexE := .cls true (cs.map fun c => (c, c))

/-- JS `.` (anything but a newline). -/
def rany : RegexE := .cls true [('\n', '\n')]

/-- JS `[\s\S]` (any character at all). -/
def rall : RegexE := .cls true []

/-- JS `\s` (whitespace; ASCII forms). -/
def rws : RegexE :=
  .cls false [(' ', ' '), ('\t', '\t'), ('\n', '\n'), ('\r', '\r'),
    (Char.ofNat 11, Char.ofNat 11), (Char.ofNat 12, Char.ofNat 12)]

/-- JS `\d`. -/
def rdigit : RegexE := .cls false [('0', '9')]

/-- The apostrophe character (used in the `["']` quote classes). -/
def apos : Char := Char.ofNat 39

/-- The `["']` class appearing around every attribute value. -/
def rquote : RegexE := rcls ['"', apos]

/-- The `[^"']` class (attribute value characters). -/
def rnq : RegexE := rncls ['"', apos]

/-! ## Text helpers used by the scraper -/

/-- JS global replacement of a literal multi-character pattern (leftmost,
non-overlapping), used for the HTML-entity unescape chain.  Fueled: every step
consumes at least one character, so the input length is enough fuel. -/
def replaceAllF (pat rep : Str) : Nat → Str → Str
  | 0, s => s
  | _ + 1, [] => []
  | fuel + 1, x :: xs =>
    if pat ≠ [] ∧ pat.isPrefixOf (x :: xs) then
      rep ++ replaceAllF pat rep fuel ((x :: xs).drop pat.length)
    else x :: replaceAllF pat rep fuel xs

/-- Entry point of the global literal replacement. -/
def replaceAllL (pat rep s : Str) : Str := replaceAllF pat rep s.length s

/-- The entity unescape chain applied to every extracted name and description
(extract-url route lines 1115-1129), in source order. -/
def htmlEntityDecode (s : String) : String :=
  let r1 := replaceAllL "&amp;".data "&".data s.data
  let r2 := replaceAllL "&lt;".data "<".data r1
  let r3 := replaceAllL "&gt;".data ">".data r2
  let r4 := replaceAllL "&quot;".data "\"".data r3
  let r5 := replaceAllL "&#39;".data [Char.ofNat 39] r4
  r5.asString

/-- JS `\w` (ASCII word character). -/
def isWordChar (c : Char) : Bool :=
  ('a' ≤ c ∧ c ≤ 'z') ∨ ('A' ≤ c ∧ c ≤ 'Z') ∨ ('0' ≤ c ∧ c ≤ '9') ∨ c = '_'

/-- JS `replace(/\b\w/g, l => l.toUpperCase())`: uppercase every word character
at a word boundary (start of text or after a non-word character). -/
def capitalizeWordsL (prevIsWord : Bool) : Str → Str
  | [] => []
  | x :: xs =>
    (if isWordChar x ∧ ¬ prevIsWord then x.toUpper else x) :: capitalizeWordsL (isWordChar x) xs

/-- String-level wrapper for the word-capitalization replacement. -/
def capitalizeWords (s : String) : String :=
  (capitalizeWordsL false s.data).asString

/-- JS regex replacement of a trailing dash-plus-digits suffix by the empty
string (the dash-digits-dollar pattern with the global flag). -/
def stripTrailingDashDigits (s : String) : String :=
  let r := s.data.reverse
  let ds := r.takeWhile Char.isDigit
  if ds = [] then s
  else
    match r.drop ds.length with
    | '-' :: rest => rest.reverse.asString
    | _ => s

/-- JS `replace(/<[^>]*>/g, "")` (tag stripping in extracted descriptions):
remove every span from a `<` through the next `>`; a `<` with no closing `>`
anywhere after it matches nothing and is kept. -/
def stripTagsF : Nat → Str → Str
  | 0, s => s
  | _ + 1, [] => []
  | fuel + 1, x :: xs =>
    if x = '<' then
      match xs.dropWhile (· ≠ '>') with
      | [] => x :: xs
      | _ :: after => stripTagsF fuel after
    else x :: stripTagsF fuel xs

/-- Entry point of the tag stripping (fueled by the input length; every step
consumes at least one character). -/
def stripTagsL (s : Str) : Str := stripTagsF s.length s

/-- String-level wrapper for tag stripping. -/
def stripTags (s : String) : String := (stripTagsL s.data).asString

/-- The inline product-name sanitizer of the scraper (extract-url route lines
853-858 and 1305-1309): like `sanitizeFilename` plus `substring(0, 50)`. -/
def sanitizeProductName50 (productName : String) : String :=
  ((toLowerL (collapseUnderscoresL (productName.data.map sanitizeChar))).take 50).asString

/-! ## The transcribed scraper patterns (LimeRoad variant) -/

/-- Line 993: the `h1` heading pattern. -/
def patH1 : RegexE :=
  rseq [rlit "<h1", rstar (rncls ['>']), rlit ">", .group 1 (rplus (rncls ['<'])),
    rlit "</h1>"]

/-- The shared shape of the four `meta` tag patterns (lines 999, 1035, 1041,
1059): an attribute introducer, the quoted attribute value, then the quoted
`content` capture. -/
def patMetaAttr (attr val : String) : RegexE :=
  rseq [rlit "<meta", rstar (rncls ['>']), rlit attr, rquote, rlit val, rquote,
    rstar (rncls ['>']), rlit "content=", rquote, .group 1 (rplus rnq), rquote]

/-- Line 999: `og:title`. -/
def patOgTitle : RegexE := patMetaAttr "property=" "og:title"

/-- Line 1035: the `description` meta tag. -/
def patMetaDesc : RegexE := patMetaAttr "name=" "description"

/-- Line 1041: `og:description`. -/
def patOgDesc : RegexE := patMetaAttr "property=" "og:description"

/-- Line 1059: `og:image`. -/
def patOgImage : RegexE := patMetaAttr "property=" "og:image"

/-- Line 1006: the `title` tag pattern. -/
def patTitleTag : RegexE :=
  rseq [rlit "<title>", .group 1 (rplus (rncls ['<'])), rlit "</title>"]

/-- Line 1009: strip a trailing dash-separated `LimeRoad` suffix from titles. -/
def patTitleStripDash : RegexE :=
  rseq [rstar rws, rlit "-", rstar rws, rlit "LimeRoad", rstar rany, .eos]

/-- Line 1010: strip a trailing pipe-separated `LimeRoad` suffix from titles. -/
def patTitleStripPipe : RegexE :=
  rseq [rstar rws, rlit "|", rstar rws, rlit "LimeRoad", rstar rany, .eos]

/-- Lines 1016 and 1065: the JSON-LD script block with a lazy body capture. -/
def patJsonLd : RegexE :=
  rseq [rlit "<script", rstar (rncls ['>']), rlit "type=", rquote,
    rlit "application/ld+json", rquote, rstar (rncls ['>']), rlit ">",
    .group 1 (rlazy rall), rlit "</script>"]

/-- Line 1048: a `div` whose class mentions `product` ... `description`. -/
def patDescDivClass : RegexE :=
  rseq [rlit "<div", rstar (rncls ['>']), rlit "class=", rquote, rstar rnq,
    rlit "product", rstar rnq, rlit "description", rstar rnq, rquote,
    rstar (rncls ['>']), rlit ">", .group 1 (rlazy rall), rlit "</div>"]

/-- Line 1049: a `div` whose id mentions `description`. -/
def patDescDivId : RegexE :=
  rseq [rlit "<div", rstar (rncls ['>']), rlit "id=", rquote, rstar rnq,
    rlit "description", rstar rnq, rquote, rstar (rncls ['>']), rlit ">",
    .group 1 (rlazy rall), rlit "</div>"]

/-- Line 1083: `img` with `itemprop="image"` and a `data-src` attribute. -/
def patImgItempropData : RegexE :=
  rseq [rlit "<img", rstar (rncls ['>']), rlit "itemprop=", rquote, rlit "image",
    rquote, rstar (rncls ['>']), rlit "data-src=", rquote, .group 1 (rplus rnq),
    rquote, rstar (rncls ['>']), rlit ">"]

/-- Line 1084: `img` with `itemprop="image"` and a `src` attribute. -/
def patImgItempropSrc : RegexE :=
  rseq [rlit "<img", rstar (rncls ['>']), rlit "itemprop=", rquote, rlit "image",
    rquote, rstar (rncls ['>']), rlit "src=", rquote, .group 1 (rplus rnq),
    rquote, rstar (rncls ['>']), rlit ">"]

/-- Line 1085: `img` with a `zmimgH` class and a `data-src` attribute. -/
def patImgZmimgHData : RegexE :=
  rseq [rlit "<img", rstar (rncls ['>']), rlit "class=", rquote, rstar rnq,
    rlit "zmimgH", rstar rnq, rquote, rstar (rncls ['>']), rlit "data-src=",
    rquote, .group 1 (rplus rnq), rquote, rstar (rncls ['>']), rlit ">"]

/-- Line 1086: `img` with a `zmimgH` class and a `src` attribute. -/
def patImgZmimgHSrc : RegexE :=
  rseq [rlit "<img", rstar (rncls ['>']), rlit "class=", rquote, rstar rnq,
    rlit "zmimgH", rstar rnq, rquote, rstar (rncls ['>']), rlit "src=",
    rquote, .group 1 (rplus rnq), rquote, rstar (rncls ['>']), rlit ">"]

/-- Line 1087: any `img` whose `data-src` mentions `junaroad.com`. -/
def patImgDataJuna : RegexE :=
  rseq [rlit "<img", rstar (rncls ['>']), rlit "data-src=", rquote,
    .group 1 (rseq [rplus rnq, rlit "junaroad.com", rstar rnq]), rquote,
    rstar (rncls ['>']), rlit ">"]

/-- Line 1095: fallback `img src` mentioning `junaroad.com` (double-quoted). -/
def patImgSrcJuna : RegexE :=
  rseq [rlit "<img", rstar (rncls ['>']), rlit "src=", rquote,
    .group 1 (rseq [rplus rnq, rlit "junaroad.com", rstar rnq]), rquote,
    rstar (rncls ['>']), rlit ">"]

/-- Line 1096: fallback `img src` mentioning `limeroad.com` (double-quoted). -/
def patImgSrcLime : RegexE :=
  rseq [rlit "<img", rstar (rncls ['>']), rlit "src=", rquote,
    .group 1 (rseq [rplus rnq, rlit "limeroad.com", rstar rnq]), rquote,
    rstar (rncls ['>']), rlit ">"]

/-- Line 1097: fallback `img src` mentioning `junaroad.com` (single-quoted). -/
def patImgSrcJunaSQ : RegexE :=
  rseq [rlit "<img", rstar (rncls ['>']), rlit "src=", rcls [apos],
    .group 1 (rseq [rplus (rncls [apos]), rlit "junaroad.com", rstar (rncls [apos])]),
    rcls [apos], rstar (rncls ['>']), rlit ">"]

/-- Line 1098: fallback `img src` mentioning `limeroad.com` (single-quoted). -/
def patImgSrcLimeSQ : RegexE :=
  rseq [rlit "<img", rstar (rncls ['>']), rlit "src=", rcls [apos],
    .group 1 (rseq [rplus (rncls [apos]), rlit "limeroad.com", rstar (rncls [apos])]),
    rcls [apos], rstar (rncls ['>']), rlit ">"]

/-- Lines 1133 and 1178: the URL path-segment capture after `limeroad.com/`. -/
def patLimeroadSeg : RegexE :=
  rseq [rlit "limeroad.com/", .group 1 (rplus (rncls ['/', '?']))]

/-! ## The LimeRoad extractor -/

/-- The first of a list of optional values (JS `a || b || c` over `match`
results, where every listed pattern captures a non-empty group 1). -/
def firstSome : List (Option String) → Option String
  | [] => none
  | some v :: _ => some v
  | none :: rest => firstSome rest

/-- Image-URL normalization (extract-url route lines 1105-1112): a
protocol-relative URL gets `https:`, a root-relative URL gets the LimeRoad
origin, everything else (including any query string) is left untouched. -/
def normalizeLimeroadImageUrl (u : String) : String :=
  if u ≠ "" then
    if strStartsWith u "//" then "https:" ++ u
    else if strStartsWith u "/" then "https://www.limeroad.com" ++ u
    else u
  else u

/-- The same normalization step in the ShopClues variant of the route
(first document of `extract-url/route.ts`, lines 412-419). -/
def normalizeShopcluesImageUrl (u : String) : String :=
  if u ≠ "" then
    if strStartsWith u "//" then "https:" ++ u
    else if strStartsWith u "/" then "https://www.shopclues.com" ++ u
    else u
  else u

/-- The same normalization step in the webscraper.io branch (first document of
`extract-url/route.ts`, lines 426-432, applied inside the match arm). -/
def normalizeWebscraperImageUrl (u : String) : String :=
  if strStartsWith u "//" then "https:" ++ u
  else if strStartsWith u "/" then "https://webscraper.io" ++ u
  else u

/-- The name transform applied to a URL path segment (lines 1135-1139,
1184-1188, 1214-1218): dashes to spaces, word-initial capitals, trailing
dash-digit suffix dropped, trimmed. -/
def segmentToName (seg : String) : String :=
  strTrim (stripTrailingDashDigits (capitalizeWords (strReplaceChar '-' " " seg)))

/-- A JSON-LD string field under JS truthiness: the assignment
`productName = jsonLd.name` is only well-behaved for non-empty strings (a
truthy non-string would crash the later string methods, escaping to the outer
catch); modelled as taking only non-empty string values. -/
def jsonStrField (j : Json) (key : String) : String :=
  match jsonField j key with
  | some (.str s) => s
  | _ => ""

/-- Product name from a JSON-LD payload (lines 1017-1028): `name` first,
`headline` second. -/
def jsonLdName (payload : String) : String :=
  match parseJson payload with
  | none => ""
  | some j =>
    if jsonStrField j "name" ≠ "" then jsonStrField j "name"
    else jsonStrField j "headline"

/-- Image URL from a JSON-LD payload (lines 1066-1077): a string `image`
field, else the `url` field of an `image` object. -/
def jsonLdImage (payload : String) : String :=
  match parseJson payload with
  | none => ""
  | some j =>
    match jsonField j "image" with
    | some (.str s) => s
    | some img =>
      match jsonField img "url" with
      | some (.str s) => s
      | _ => ""
    | _ => ""

/-- The parse of a successfully fetched, non-blocked LimeRoad page
(extract-url route lines 990-1165): the per-field extraction cascades,
entity unescaping, URL normalization, URL-derived name fallback, and the
never-empty defaults. -/
def extractLimeroadFromHtml (cleanUrl html : String) : ProductDetails :=
  -- product name cascade (lines 991-1029)
  let pn0 :=
    match jsMatchG true patH1 html 1 with
    | some g => strTrim g
    | none => ""
  let pn1 :=
    if pn0 = "" then
      match jsMatchG true patOgTitle html 1 with
      | some g => strTrim g
      | none => pn0
    else pn0
  let pn2 :=
    if pn1 = "" then
      match jsMatchG true patTitleTag html 1 with
      | some g =>
        strTrim (jsReplaceRegex true patTitleStripPipe
          (jsReplaceRegex true patTitleStripDash g "") "")
      | none => pn1
    else pn1
  let pn3 :=
    if pn2 = "" then
      match jsMatchG true patJsonLd html 1 with
      | some payload => jsonLdName payload
      | none => pn2
    else pn2
  -- product description cascade (lines 1031-1053)
  let pd0 :=
    match jsMatchG true patMetaDesc html 1 with
    | some g => strTrim g
    | none => ""
  let pd1 :=
    if pd0 = "" ∨ pd0.length < 20 then
      match jsMatchG true patOgDesc html 1 with
      | some g => strTrim g
      | none => pd0
    else pd0
  let pd2 :=
    if pd1 = "" ∨ pd1.length < 20 then
      match firstSome [jsMatchG true patDescDivClass html 1,
                       jsMatchG true patDescDivId html 1] with
      | some g => if g ≠ "" then (strTrim (stripTags g)).take 200 else pd1
      | none => pd1
    else pd1
  -- product image cascade (lines 1055-1112)
  let img0 :=
    match jsMatchG true patOgImage html 1 with
    | some g => strTrim g
    | none => ""
  let img1 :=
    if img0 = "" then
      match jsMatchG true patJsonLd html 1 with
      | some payload => jsonLdImage payload
      | none => img0
    else img0
  let img2 :=
    if img1 = "" then
      match firstSome [jsMatchG true patImgItempropData html 1,
                       jsMatchG true patImgItempropSrc html 1,
                       jsMatchG true patImgZmimgHData html 1,
                       jsMatchG true patImgZmimgHSrc html 1,
                       jsMatchG true patImgDataJuna html 1] with
      | some g => strTrim g
      | none => img1
    else img1
  let img3 :=
    if img2 = "" then
      match firstSome [jsMatchG true patImgSrcJuna html 1,
                       jsMatchG true patImgSrcLime html 1,
                       jsMatchG true patImgSrcJunaSQ html 1,
                       jsMatchG true patImgSrcLimeSQ html 1] with
      | some g =>
        if ¬ strContains g "placeholder" ∧ ¬ strContains g "logo" then strTrim g
        else img2
      | none => img2
    else img2
  let productImageUrl := normalizeLimeroadImageUrl img3
  -- entity unescape and trim (lines 1114-1129)
  let pnClean := strTrim (htmlEntityDecode pn3)
  let pdClean := strTrim (htmlEntityDecode pd2)
  -- URL-derived name fallback (lines 1131-1141)
  let pnUrl :=
    if pnClean = "" ∨ pnClean = "Product" then
      match jsMatchG true patLimeroadSeg cleanUrl 1 with
      | some seg => segmentToName seg
      | none => pnClean
    else pnClean
  -- defaults (lines 1143-1150)
  let productName := if pnUrl = "" then "LimeRoad Product" else pnUrl
  let productDescription := if pdClean = "" then "Product from LimeRoad" else pdClean
  { productName := productName
    productDescription := productDescription
    productImageUrl := productImageUrl
    productUrl := cleanUrl }

/-! ## The scraper state machine -/

/-- Outcome of the single page fetch: the abort-triggered timeout (or any
other fetch exception), a non-2xx response, or a body. -/
inductive FetchOutcome where
  | timeout
  | notOk (status : Nat)
  | ok (html : String)
deriving DecidableEq, Repr

/-- Block-page detection (extract-url route lines 953-955). -/
def isBlockedHtml (html : String) : Bool :=
  strContains html "Access Denied" || strContains html "403" ||
    strContains html "Blocked" || strContains html "access denied" ||
    strContains html "blocked" ||
    (strContains (strToLower html) "cloudflare" && strContains (strToLower html) "checking")

/-- `extractProductDetails` (extract-url route lines 887-1233, LimeRoad
variant).  Returns the extraction result and the list of URLs fetched (for the
no-network-call property).  In the blocked branch (lines 957-985) the URL
regex has no capture group, so `urlMatch[1]` is `undefined` and
`extractedName` stays empty; the result is the constant block-page fallback.
`cleanUrlOf` is the URL cleanup of lines 889-896 (trim, default protocol,
fragment removal). -/
def cleanUrlOf (productUrl : String) : String :=
  let cleanUrl0 := strTrim productUrl
  let cleanUrl1 :=
    if ¬ strStartsWith cleanUrl0 "http://" ∧ ¬ strStartsWith cleanUrl0 "https://" then
      "https://" ++ cleanUrl0
    else cleanUrl0
  (splitChar '#' cleanUrl1).headD ""

def extractProductDetails (productUrl : String) (outcome : FetchOutcome) :
    Option ProductDetails × List String :=
  let cleanUrl := cleanUrlOf productUrl
  let isShopClues := strContains cleanUrl "limeroad.com"
  if ¬ isShopClues then (none, [])
  else
    match outcome with
    | .notOk _ => (none, [cleanUrl])
    | .timeout =>
      -- fetch-error fallback (lines 1166-1199)
      match jsMatchG true patLimeroadSeg cleanUrl 1 with
      | some seg =>
        let extractedName := segmentToName seg
        (some { productName := if extractedName = "" then "LimeRoad Product" else extractedName
                productDescription := "Product from LimeRoad"
                productImageUrl := ""
                productUrl := cleanUrl }, [cleanUrl])
      | none => (none, [cleanUrl])
    | .ok html =>
      if html.length < 100 then (none, [cleanUrl])
      else if isBlockedHtml html then
        (some { productName := "LimeRoad Product"
                productDescription := "Product from LimeRoad"
                productImageUrl := "https://fakestoreapi.com/img/81fPKd-2AYL._AC_SL1500_t.png"
                productUrl := cleanUrl }, [cleanUrl])
      else (some (extractLimeroadFromHtml cleanUrl html), [cleanUrl])

/-- Environment of the image download side effect inside the scrape. -/
structure ImageFetchEnv where
  fetchOk : Bool
  contentTypeHeader : Option String
  hexSuffix : String
  writeOk : Bool
deriving DecidableEq, Repr

/-- `downloadAndSaveImage` (extract-url route lines 828-885, both storage
branches return `uniqueFilename`): download the image, derive the extension
from the content type, and store under the sanitized product name plus random
hex suffix.  Also returns the URLs fetched. -/
def downloadAndSaveImage (imageUrl productName : String) (env : ImageFetchEnv) :
    Option String × List String :=
  if imageUrl = "" then (none, [])
  else if ¬ env.fetchOk then (none, [imageUrl])
  else
    let contentType := match env.contentTypeHeader with
      | some h => if h = "" then "image/jpeg" else h
      | none => "image/jpeg"
    let ext :=
      if strContains contentType "png" then ".png"
      else if strContains contentType "webp" then ".webp"
      else ".jpg"
    let sanitizedName := sanitizeProductName50 productName
    let uniqueFilename := sanitizedName ++ "_" ++ env.hexSuffix ++ ext
    if env.writeOk then (some uniqueFilename, [imageUrl]) else (none, [imageUrl])

/-- Environment of a whole extract-url request. -/
structure ExtractEnv where
  pageOutcome : FetchOutcome
  image : ImageFetchEnv
  placeholderHex : String
  metaSaveOk : Bool
deriving DecidableEq, Repr

/-- The JSON envelope returned by the extract-url route. -/
inductive ExtractResponse where
  | err (status : Nat) (message : String)
  | ok (imageUrl productUrl productName productDescription : String)
deriving DecidableEq, Repr

/-- `POST /api/extract-url` (extract-url route lines 1235-1357).  `body` is
`none` for unparseable JSON and `some none` for a missing or non-string
`productUrl` field.  Returns the response, the updated metadata map, and the
trace of URLs fetched. -/
def postExtractUrl (body : Option (Option String)) (env : ExtractEnv)
    (origin : String) (meta : MetadataMap) :
    ExtractResponse × MetadataMap × List String :=
  match body with
  | none => (.err 400 "Invalid JSON in request body", meta, [])
  | some productUrl? =>
    match productUrl? with
    | none => (.err 400 "Product URL is required and must be a valid string", meta, [])
    | some productUrl =>
      if strTrim productUrl = "" then
        (.err 400 "Product URL is required and must be a valid string", meta, [])
      else
        let trimmedUrl := strTrim productUrl
        if ¬ strContains trimmedUrl "limeroad.com" then
          (.err 400 "Please provide a valid limeroad.com URL", meta, [])
        else
          match extractProductDetails trimmedUrl env.pageOutcome with
          | (none, trace) =>
            (.err 400 ("Failed to extract product details. The URL might be invalid " ++
              "or the page structure has changed. Please try again or check the URL."),
             meta, trace)
          | (some details, trace) =>
            let (saved?, trace2) :=
              if details.productImageUrl ≠ "" then
                downloadAndSaveImage details.productImageUrl details.productName env.image
              else (none, [])
            let savedFilename := match saved? with
              | some f => f
              | none =>
                "placeholder_" ++ sanitizeProductName50 details.productName ++ "_" ++
                  env.placeholderHex ++ ".txt"
            let meta' :=
              if env.metaSaveOk then
                setKey meta savedFilename
                  { filename := savedFilename
                    productUrl := some details.productUrl
                    productName := some details.productName
                    productDescription := some details.productDescription
                    productImageUrl :=
                      if details.productImageUrl ≠ "" then some details.productImageUrl
                      else none }
              else meta
            let imageUrl :=
              if ¬ strStartsWith savedFilename "placeholder_" then
                origin ++ "/api/images/" ++ savedFilename
              else details.productImageUrl
            (.ok imageUrl details.productUrl details.productName details.productDescription,
             meta', trace ++ trace2)

/-- Modelled from the spec: the image-URL normalization as section 4.4 words
it — protocol-relative URLs prefixed with `https:`, root-relative URLs
prefixed with the site's origin, and the query string stripped from the
result.  This definition exists only to be compared with the normalization
the code actually performs (`normalizeLimeroadImageUrl`). -/
def specNormalizeImageUrl (origin u : String) : String :=
  let absolute :=
    if strStartsWith u "//" then "https:" ++ u
    else if strStartsWith u "/" then origin ++ u
    else u
  (splitChar '?' absolute).headD ""

/-- Well-formedness of a `randomBytes(n).toString("hex")` suffix: non-empty
and made of lowercase hex digits (so it contains no underscore, dot, slash,
or hyphen). -/
def isHexSuffix (hex : String) : Prop :=
  hex.data ≠ [] ∧ ∀ c ∈ hex.data, c ∈ ("0123456789abcdef".data)

/-! # Helper lemmas -/

theorem getLast!_single {α : Type} [Inhabited α] (x : α) : ([x] : List α).getLast! = x := rfl

theorem takeWhile_all_stop {p : Char → Bool} {xs ys : Str} {y : Char}
    (hx : ∀ x ∈ xs, p x = true) (hy : p y = false) :
    (xs ++ y :: ys).takeWhile p = xs := by
  induction xs with
  | nil => simp [List.takeWhile, hy]
  | cons a as ih =>
    have ha := hx a (by simp)
    simp only [List.cons_append, List.takeWhile, ha, List.cons.injEq, true_and]
    exact ih fun x hx' => hx x (by simp [hx'])

theorem dropWhile_all_stop {p : Char → Bool} {xs ys : Str} {y : Char}
    (hx : ∀ x ∈ xs, p x = true) (hy : p y = false) :
    (xs ++ y :: ys).dropWhile p = y :: ys := by
  induction xs with
  | nil => simp [List.dropWhile, hy]
  | cons a as ih =>
    have ha := hx a (by simp)
    simp only [List.cons_append, List.dropWhile, ha]
    exact ih fun x hx' => hx x (by simp [hx'])

theorem splitCharL_of_not_mem {c : Char} {xs : Str} (h : c ∉ xs) :
    splitCharL c xs = [xs] := by
  induction xs with
  | nil => rfl
  | cons a as ih =>
    have ha : a ≠ c := fun he => h (he ▸ List.mem_cons_self a as)
    have := ih fun hm => h (List.mem_cons_of_mem a hm)
    simp [splitCharL, this, ha]

theorem splitCharL_ne_nil {c : Char} {xs : Str} : splitCharL c xs ≠ [] := by
  induction xs with
  | nil => simp [splitCharL]
  | cons a as ih =>
    rw [splitCharL]
    cases h : splitCharL c as with
    | nil => exact absurd h ih
    | cons h' t => by_cases hac : a = c <;> simp [hac]

theorem splitCharL_append_sep {c : Char} {xs ys : Str} (h : c ∉ xs) :
    splitCharL c (xs ++ c :: ys) = xs :: splitCharL c ys := by
  induction xs with
  | nil =>
    rw [List.nil_append, splitCharL]
    cases hys : splitCharL c ys with
    | nil => exact absurd hys splitCharL_ne_nil
    | cons h' t => simp
  | cons a as ih =>
    have ha : a ≠ c := fun he => h (he ▸ List.mem_cons_self a as)
    have hrec := ih fun hm => h (List.mem_cons_of_mem a hm)
    rw [List.cons_append, splitCharL, hrec]
    simp [ha]

theorem pathExtnameL_concat {pre tail : Str}
    (hpre : pre ≠ []) (h1 : '/' ∉ pre) (h2 : '/' ∉ tail) (h3 : '.' ∉ tail) :
    pathExtnameL (pre ++ '.' :: tail) = '.' :: tail := by
  have hs : ('/' : Char) ∉ pre ++ '.' :: tail := by
    intro hmem
    rcases List.mem_append.mp hmem with h | h
    · exact h1 h
    · rcases List.mem_cons.mp h with h | h
      · exact absurd h.symm (by decide)
      · exact h2 h
  have hsplit : splitCharL '/' (pre ++ '.' :: tail) = [pre ++ '.' :: tail] :=
    splitCharL_of_not_mem hs
  have hrev : (pre ++ '.' :: tail).reverse = tail.reverse ++ '.' :: pre.reverse := by
    simp [List.reverse_append]
  have htk : (tail.reverse ++ '.' :: pre.reverse).takeWhile (· ≠ '.') = tail.reverse :=
    takeWhile_all_stop
      (fun x hx => by
        have : x ≠ '.' := fun he => h3 (he ▸ List.mem_reverse.mp hx)
        simpa using this)
      (by simp)
  have hdw : (tail.reverse ++ '.' :: pre.reverse).dropWhile (· ≠ '.') = '.' :: pre.reverse :=
    dropWhile_all_stop
      (fun x hx => by
        have : x ≠ '.' := fun he => h3 (he ▸ List.mem_reverse.mp hx)
        simpa using this)
      (by simp)
  simp only [pathExtnameL, hsplit, getLast!_single, hrev,
    List.span_eq_take_drop, htk, hdw]
  have hpr : pre.reverse ≠ [] := by simpa using hpre
  simp [hpr]

theorem pathBasenameL_concat {pre tail : Str}
    (hpre : pre ≠ []) (h1 : '/' ∉ pre) (h2 : '/' ∉ tail) :
    pathBasenameL (pre ++ '.' :: tail) ('.' :: tail) = pre := by
  have hs : ('/' : Char) ∉ pre ++ '.' :: tail := by
    intro hmem
    rcases List.mem_append.mp hmem with h | h
    · exact h1 h
    · rcases List.mem_cons.mp h with h | h
      · exact absurd h.symm (by decide)
      · exact h2 h
  have hsplit : splitCharL '/' (pre ++ '.' :: tail) = [pre ++ '.' :: tail] :=
    splitCharL_of_not_mem hs
  have hne : pre ++ '.' :: tail ≠ '.' :: tail := by
    intro he
    have hl := congrArg List.length he
    simp only [List.length_append, List.length_cons] at hl
    have hp0 : pre.length ≠ 0 := fun h0 => hpre (List.length_eq_zero.mp h0)
    omega
  have hsuf : (('.' :: tail).isSuffixOf (pre ++ '.' :: tail)) = true := by
    rw [List.isSuffixOf_iff_suffix]
    exact ⟨pre, rfl⟩
  simp only [pathBasenameL, hsplit, getLast!_single]
  rw [if_pos ⟨by simp, hne, hsuf⟩]
  have hlen : (pre ++ '.' :: tail).length - ('.' :: tail).length = pre.length := by simp
  rw [hlen, List.take_left]

theorem replaceOnceL_strip {p0 : Char} {pt xs : Str} (hne : p0 ∉ xs) :
    replaceOnceL (xs ++ p0 :: pt) (p0 :: pt) [] = xs := by
  induction xs with
  | nil =>
    rw [List.nil_append, replaceOnceL]
    simp [List.isPrefixOf_iff_prefix]
  | cons a as ih =>
    have ha : a ≠ p0 := fun he => hne (he ▸ List.mem_cons_self a as)
    have hrec := ih fun hm => hne (List.mem_cons_of_mem a hm)
    rw [List.cons_append, replaceOnceL]
    simp only [reduceCtorEq, if_false, List.nil_eq, reduceIte]
    have hnp : ¬ (p0 :: pt).isPrefixOf (a :: (as ++ p0 :: pt)) = true := by
      rw [List.isPrefixOf_iff_prefix]
      intro ⟨t, ht⟩
      have := List.cons.inj ht
      exact ha this.1.symm
    simp only [hnp, if_false, hrec]
    simp

theorem containsL_append_left {xs ys n : Str} (h : containsL ys n = true) :
    containsL (xs ++ ys) n = true := by
  induction xs with
  | nil => simpa using h
  | cons a as ih =>
    rw [List.cons_append, containsL]
    simp [ih]

theorem getKey_setKey_self (m : MetadataMap) (k : String) (v : ImageMetadata) :
    getKey (setKey m k v) k = some v := by
  induction m with
  | nil => simp [setKey, getKey]
  | cons p t ih =>
    by_cases h : p.1 = k
    · simp [setKey, getKey, h]
    · simp [setKey, getKey, h, ih]

theorem getKey_not_mem {m : MetadataMap} {k : String}
    (h : k ∉ m.map Prod.fst) : getKey m k = none := by
  induction m with
  | nil => rfl
  | cons p t ih =>
    simp only [List.map_cons, List.mem_cons, not_or] at h
    rw [getKey]
    rw [if_neg fun he => h.1 he.symm]
    exact ih h.2

theorem getKey_eraseKey_self {m : MetadataMap} {k : String}
    (h : (m.map Prod.fst).Nodup) : getKey (eraseKey m k) k = none := by
  induction m with
  | nil => rfl
  | cons p t ih =>
    simp only [List.map_cons, List.nodup_cons] at h
    rw [eraseKey]
    by_cases hk : p.1 = k
    · rw [if_pos hk]
      exact getKey_not_mem fun hm => h.1 (hk ▸ hm)
    · rw [if_neg hk, getKey, if_neg hk]
      exact ih h.2

theorem entryFor_filename (meta : MetadataMap) (origin : String) (stat : FileStat)
    (file : String) : (entryFor meta origin stat file).filename = file := by
  simp [entryFor]

theorem mem_jsInsert {le : ImageEntry → ImageEntry → Bool} {x e : ImageEntry}
    {l : List ImageEntry} : e ∈ jsInsert le x l → e = x ∨ e ∈ l := by
  induction l with
  | nil => intro h; simpa [jsInsert] using h
  | cons y ys ih =>
    intro h
    rw [jsInsert] at h
    split at h
    · rcases List.mem_cons.mp h with h1 | h1
      · exact Or.inl h1
      · exact Or.inr h1
    · rcases List.mem_cons.mp h with h1 | h1
      · exact Or.inr (h1 ▸ List.mem_cons_self _ _)
      · rcases ih h1 with h2 | h2
        · exact Or.inl h2
        · exact Or.inr (List.mem_cons_of_mem _ h2)

theorem mem_jsSortBy {le : ImageEntry → ImageEntry → Bool} {e : ImageEntry}
    {l : List ImageEntry} : e ∈ jsSortBy le l → e ∈ l := by
  induction l with
  | nil => intro h; simpa [jsSortBy] using h
  | cons x xs ih =>
    intro h
    rw [jsSortBy] at h
    rcases mem_jsInsert h with h | h
    · simp [h]
    · exact List.mem_cons_of_mem _ (ih h)

theorem mem_listImages_filename {meta : MetadataMap} {origin : String}
    {stats : String → FileStat} {files : List String} {e : ImageEntry}
    (h : e ∈ listImages meta origin stats files) :
    e.filename ∈ files ∧ isValidImageFile e.filename = true := by
  rw [listImages] at h
  have h := mem_jsSortBy h
  rw [listImagesEntries] at h
  obtain ⟨f, hf, he⟩ := List.mem_map.mp h
  have hmem := List.mem_filter.mp hf
  rw [← he, entryFor_filename]
  exact ⟨hmem.1, hmem.2⟩

/-! # Claim theorems -/

/-- C8: for every state of the metadata document, loading the metadata returns
the parsed value when the document exists and is valid JSON, and returns the
empty map — without surfacing an error — when the document is absent or its
contents are corrupt (unparseable JSON). -/
theorem loadMetadata_parse_or_empty :
    loadMetadata none = Json.obj [] ∧
    (∀ content v, parseJson content = some v → loadMetadata (some content) = v) ∧
    (∀ content, parseJson content = none → loadMetadata (some content) = Json.obj []) := by
  refine ⟨rfl, ?_, ?_⟩
  · intro content v h
    simp [loadMetadata, h]
  · intro content h
    simp [loadMetadata, h]

/-- Witness for C8: a well-formed document round-trips, a corrupt one and an
absent one both give the empty map. -/
theorem loadMetadata_parse_or_empty_witness :
    loadMetadata (some "\x7b\"a.png\": \x7b\"filename\": \"a.png\"\x7d\x7d") =
      Json.obj [("a.png", Json.obj [("filename", Json.str "a.png")])] ∧
    loadMetadata (some "\x7b corrupt") = Json.obj [] ∧
    loadMetadata none = Json.obj [] :=
  ⟨loadMetadata_parse_or_empty.2.1 _ _ (by rfl),
   loadMetadata_parse_or_empty.2.2 _ (by rfl),
   loadMetadata_parse_or_empty.1⟩

/-- C4: for every extract-url request whose URL does not contain the supported
retailer domain, the endpoint answers 400 before any network fetch: the fetch
trace is empty and the metadata map is untouched. -/
theorem extractUrl_unsupported_domain_fast_fail
    (url : String) (env : ExtractEnv) (origin : String) (meta : MetadataMap)
    (h : strContains (strTrim url) "limeroad.com" = false) :
    ∃ msg, postExtractUrl (some (some url)) env origin meta = (.err 400 msg, meta, []) := by
  by_cases he : strTrim url = ""
  · exact ⟨"Product URL is required and must be a valid string", by simp [postExtractUrl, he]⟩
  · exact ⟨"Please provide a valid limeroad.com URL", by simp [postExtractUrl, he, h]⟩

/-- Witness for C4 at a concrete unsupported URL. -/
theorem extractUrl_unsupported_domain_fast_fail_witness :
    strContains (strTrim "https://www.amazon.com/dp/B01") "limeroad.com" = false ∧
    ∃ msg, postExtractUrl (some (some "https://www.amazon.com/dp/B01"))
        ⟨.ok "x", ⟨true, none, "ab", true⟩, "cd", true⟩ "http://localhost:3000" [] =
      (.err 400 msg, [], []) :=
  ⟨by decide,
   extractUrl_unsupported_domain_fast_fail "https://www.amazon.com/dp/B01"
     ⟨.ok "x", ⟨true, none, "ab", true⟩, "cd", true⟩ "http://localhost:3000" [] (by decide)⟩

/-- Counterexample for C3: a file named `photo.gif` — an extension outside the
allow-list — but declared as `image/png` passes validation, is stored, and the
request succeeds, because the check accepts a file when its MIME type **or**
its extension is allowed.  The claim that such a file is rejected regardless
of its declared MIME type is therefore false. -/
theorem upload_bad_extension_good_mime_accepted :
    fileTypeOk ⟨"photo.gif", "image/png", 100, "00ff", true⟩ = true ∧
    uploadPost [⟨"photo.gif", "image/png", 100, "00ff", true⟩] none [] =
      (.ok 1 ["photo_00ff.gif"] [],
       [("photo_00ff.gif", ⟨"photo_00ff.gif", none, some "photo", none, none⟩)]) := by
  exact ⟨by decide, by decide⟩

theorem processOneFile_stored (f : UploadFile) (productUrl : Option String)
    (hvt : fileTypeOk f = true) (hpos : 0 < f.size) (hle : f.size ≤ MAX_FILE_SIZE)
    (hstore : f.storeOk = true) :
    processOneFile productUrl f = .inl
      (⟨generateUniqueFilename f.name f.hexSuffix,
        extractProductName (generateUniqueFilename f.name f.hexSuffix),
        match productUrl with
        | some u => if strTrim u ≠ "" then some (strTrim u) else none
        | none => none⟩,
       generateUniqueFilename f.name f.hexSuffix,
       ⟨generateUniqueFilename f.name f.hexSuffix,
        (match productUrl with
         | some u => if strTrim u ≠ "" then some (strTrim u) else none
         | none => none),
        some (extractProductName (generateUniqueFilename f.name f.hexSuffix)),
        none, none⟩) := by
  simp only [processOneFile]
  rw [if_neg (not_not_intro hvt), if_neg (Nat.not_lt.mpr hle),
    if_neg (Nat.pos_iff_ne_zero.mp hpos), if_neg (not_not_intro hstore)]

/-- C3 (amended): the per-file type validation fails exactly when **both** the
declared MIME type and the filename extension (lowercased) are outside the
allow-lists; a file failing it is rejected with the per-file error and a
single-file request with it answers 400 with the metadata unchanged; and
either signal alone suffices for acceptance — in particular an allowed
extension with any MIME type, and an allowed MIME type with any extension,
each lead (absent size or storage failures) to the file being stored and the
request succeeding. -/
theorem upload_rejects_iff_mime_and_extension_disallowed
    (f : UploadFile) (productUrl : Option String) (meta : MetadataMap) :
    (fileTypeOk f = false ↔
      ALLOWED_TYPES.contains (strToLower f.mimeType) = false ∧
      ALLOWED_EXTENSIONS.contains (strToLower (pathExtname f.name)) = false) ∧
    (fileTypeOk f = false →
      ∃ msg, processOneFile productUrl f = .inr msg ∧
        uploadPost [f] productUrl meta = (.err 400 "No files were uploaded" [msg], meta)) ∧
    (ALLOWED_EXTENSIONS.contains (strToLower (pathExtname f.name)) = true →
      0 < f.size → f.size ≤ MAX_FILE_SIZE → f.storeOk = true →
      ∃ stored, processOneFile productUrl f = .inl stored ∧
        uploadPost [f] productUrl meta =
          (.ok 1 [stored.1.filename] [], setKey meta stored.2.1 stored.2.2)) ∧
    (ALLOWED_TYPES.contains (strToLower f.mimeType) = true →
      0 < f.size → f.size ≤ MAX_FILE_SIZE → f.storeOk = true →
      ∃ stored, processOneFile productUrl f = .inl stored ∧
        uploadPost [f] productUrl meta =
          (.ok 1 [stored.1.filename] [], setKey meta stored.2.1 stored.2.2)) := by
  refine ⟨?_, ?_, ?_, ?_⟩
  · simp only [fileTypeOk]
    cases ha : ALLOWED_TYPES.contains (strToLower f.mimeType) <;>
      cases hb : ALLOWED_EXTENSIONS.contains (strToLower (pathExtname f.name)) <;>
        simp [ha, hb]
  · intro hvt
    refine ⟨f.name ++ ": Invalid file type (MIME: " ++
        (if strToLower f.mimeType = "" then "unknown" else strToLower f.mimeType) ++
        ", Ext: " ++ strToLower (pathExtname f.name) ++
        "). Only JPG, PNG, and WEBP are allowed.", ?_, ?_⟩
    · simp [processOneFile, hvt]
    · simp [uploadPost, processFiles, processOneFile, hvt]
  · intro hext hpos hle hstore
    have hb : strToLower (pathExtname f.name) ∈ ALLOWED_EXTENSIONS := by simpa using hext
    have hvt : fileTypeOk f = true := by
      simp only [fileTypeOk]
      simp [hb]
    have hp := processOneFile_stored f productUrl hvt hpos hle hstore
    refine ⟨_, hp, ?_⟩
    rw [uploadPost, if_neg (by simp), processFiles, hp, processFiles]
    rfl
  · intro hmime hpos hle hstore
    have ha : strToLower f.mimeType ∈ ALLOWED_TYPES := by simpa using hmime
    have hvt : fileTypeOk f = true := by
      simp only [fileTypeOk]
      simp [ha]
    have hp := processOneFile_stored f productUrl hvt hpos hle hstore
    refine ⟨_, hp, ?_⟩
    rw [uploadPost, if_neg (by simp), processFiles, hp, processFiles]
    rfl

/-- Witness for C3 (amended): `notes.txt`/`text/plain` (both signals
disallowed) is rejected and the request answers 400; `photo.png`/`text/plain`
(allowed extension, disallowed MIME type) is stored and the request
succeeds. -/
theorem upload_rejects_iff_mime_and_extension_disallowed_witness :
    (∃ msg, processOneFile none ⟨"notes.txt", "text/plain", 100, "00ff", true⟩ = .inr msg ∧
      uploadPost [⟨"notes.txt", "text/plain", 100, "00ff", true⟩] none [] =
        (.err 400 "No files were uploaded" [msg], [])) ∧
    (∃ stored,
      processOneFile none ⟨"photo.png", "text/plain", 100, "00ff", true⟩ = .inl stored ∧
      uploadPost [⟨"photo.png", "text/plain", 100, "00ff", true⟩] none [] =
        (.ok 1 [stored.1.filename] [], setKey [] stored.2.1 stored.2.2)) :=
  ⟨(upload_rejects_iff_mime_and_extension_disallowed
      ⟨"notes.txt", "text/plain", 100, "00ff", true⟩ none []).2.1 (by decide),
   (upload_rejects_iff_mime_and_extension_disallowed
      ⟨"photo.png", "text/plain", 100, "00ff", true⟩ none []).2.2.1
     (by decide) (by decide) (by decide) rfl⟩

/-- C10: files of a multi-file upload are validated and stored independently —
the stored list and the error list are each a per-file function of that file
alone (so one file's failure cannot affect another's outcome) — and the
endpoint answers 400 exactly when zero files were stored, returning a success
envelope with the per-file error list otherwise. -/
theorem upload_per_file_independent_and_status
    (files : List UploadFile) (productUrl : Option String) (meta : MetadataMap)
    (hne : files ≠ []) :
    (processFiles productUrl meta files).1 =
      files.filterMap (fun f =>
        match processOneFile productUrl f with
        | .inl (e, _, _) => some e
        | .inr _ => none) ∧
    (processFiles productUrl meta files).2.1 =
      files.filterMap (fun f =>
        match processOneFile productUrl f with
        | .inl _ => none
        | .inr msg => some msg) ∧
    uploadPost files productUrl meta =
      (if (processFiles productUrl meta files).1.length = 0 then
        .err 400 "No files were uploaded" (processFiles productUrl meta files).2.1
       else
        .ok (processFiles productUrl meta files).1.length
          ((processFiles productUrl meta files).1.map (·.filename))
          (processFiles productUrl meta files).2.1,
       (processFiles productUrl meta files).2.2) := by
  have main : ∀ (fs : List UploadFile) (m : MetadataMap),
      (processFiles productUrl m fs).1 =
        fs.filterMap (fun f =>
          match processOneFile productUrl f with
          | .inl (e, _, _) => some e
          | .inr _ => none) ∧
      (processFiles productUrl m fs).2.1 =
        fs.filterMap (fun f =>
          match processOneFile productUrl f with
          | .inl _ => none
          | .inr msg => some msg) := by
    intro fs
    induction fs with
    | nil => intro m; simp [processFiles]
    | cons f ft ih =>
      intro m
      rw [processFiles]
      cases hpf : processOneFile productUrl f with
      | inl tr =>
        obtain ⟨e, key, recd⟩ := tr
        simp only [List.filterMap_cons, hpf]
        have := ih (setKey m key recd)
        exact ⟨by simp [this.1], by simp [this.2]⟩
      | inr msg =>
        simp only [List.filterMap_cons, hpf]
        have := ih m
        exact ⟨by simp [this.1], by simp [this.2]⟩
  refine ⟨(main files meta).1, (main files meta).2, ?_⟩
  have hlen : files.length ≠ 0 := by
    intro h0
    exact hne (List.length_eq_zero.mp h0)
  rw [uploadPost]
  rw [if_neg hlen]
  rcases hp : processFiles productUrl meta files with ⟨ups, errs, meta2⟩
  by_cases hu : ups.length = 0
  · simp [hp, hu]
  · simp [hp, hu]

/-- Witness for C10: three files — one valid, one with both MIME type and
extension disallowed, one whose storage write fails — yield one stored file,
two per-file errors, and a success envelope. -/
theorem upload_per_file_independent_and_status_witness :
    ([⟨"a.png", "image/png", 10, "aa", true⟩,
      ⟨"b.txt", "text/plain", 10, "bb", true⟩,
      ⟨"c.png", "image/png", 10, "cc", false⟩] : List UploadFile) ≠ [] ∧
    (processFiles none [] [⟨"a.png", "image/png", 10, "aa", true⟩,
      ⟨"b.txt", "text/plain", 10, "bb", true⟩,
      ⟨"c.png", "image/png", 10, "cc", false⟩]).1 =
      [⟨"a_aa.png", "a", none⟩] ∧
    (uploadPost [⟨"a.png", "image/png", 10, "aa", true⟩,
      ⟨"b.txt", "text/plain", 10, "bb", true⟩,
      ⟨"c.png", "image/png", 10, "cc", false⟩] none []).1 =
      .ok 1 ["a_aa.png"]
        ["b.txt: Invalid file type (MIME: text/plain, Ext: .txt). Only JPG, PNG, and WEBP are allowed.",
         "c.png: Failed to save file - write error"] := by
  refine ⟨by decide, by decide, ?_⟩
  have h := (upload_per_file_independent_and_status
    [⟨"a.png", "image/png", 10, "aa", true⟩,
     ⟨"b.txt", "text/plain", 10, "bb", true⟩,
     ⟨"c.png", "image/png", 10, "cc", false⟩] none [] (by decide)).2.2
  rw [h]
  decide

/-- C1: the get-by-name lookup tries the five matching strategies in their
fixed order — exact (decoded or raw), case-insensitive exact, hyphen-stripped
base-name, substring containment on base names and full names, path-suffix —
and returns the first blob (in list order) found by the first strategy with
any match, ignoring all later strategies. -/
theorem cascade_first_strategy_wins
    (filename decodedFilename : String) (blobs : List String) (j : Nat) (b : String)
    (hj : j < 5)
    (hearlier : ∀ i, i < j → blobs.find? (stageMatch filename decodedFilename i) = none)
    (hfound : blobs.find? (stageMatch filename decodedFilename j) = some b) :
    findBlobCascade filename decodedFilename blobs = some b := by
  match j with
  | 0 => simp [findBlobCascade, hfound]
  | 1 =>
    simp [findBlobCascade, hearlier 0 (by omega), hfound]
  | 2 =>
    simp [findBlobCascade, hearlier 0 (by omega), hearlier 1 (by omega), hfound]
  | 3 =>
    simp [findBlobCascade, hearlier 0 (by omega), hearlier 1 (by omega),
      hearlier 2 (by omega), hfound]
  | 4 =>
    simp [findBlobCascade, hearlier 0 (by omega), hearlier 1 (by omega),
      hearlier 2 (by omega), hearlier 3 (by omega), hfound]

/-- Witness for C1: with one blob matching only case-insensitively and a later
blob matching exactly, stage 0 still wins and picks the exact blob; and in a
store where only the base-name stage matches, stage 2 picks the first such
blob while the two earlier stages found nothing. -/
theorem cascade_first_strategy_wins_witness :
    findBlobCascade "photo.png" "photo.png" ["PHOTO.PNG", "photo.png"] = some "photo.png" ∧
    findBlobCascade "pic-1.png" "pic-1.png" ["other.jpg", "pic-zz.png"] = some "pic-zz.png" :=
  ⟨cascade_first_strategy_wins "photo.png" "photo.png" ["PHOTO.PNG", "photo.png"] 0
     "photo.png" (by decide) (fun i hi => absurd hi (by omega)) (by decide),
   cascade_first_strategy_wins "pic-1.png" "pic-1.png" ["other.jpg", "pic-zz.png"] 2
     "pic-zz.png" (by decide)
     (fun i hi => by
       interval_cases i
       · decide
       · decide)
     (by decide)⟩

theorem startsWith_append_self (pre rest : String) :
    strStartsWith (pre ++ rest) pre = true := by
  rw [strStartsWith, startsWithL, List.isPrefixOf_iff_prefix]
  exact ⟨rest.data, by simp⟩

theorem strStartsWith_append4 (p a b c d : String) :
    strStartsWith (p ++ a ++ b ++ c ++ d) p = true := by
  rw [strStartsWith, startsWithL, List.isPrefixOf_iff_prefix]
  exact ⟨(a ++ b ++ c ++ d).data, by simp⟩

theorem downloadAndSaveImage_shape (imageUrl productName : String) (env : ImageFetchEnv)
    (h : imageUrl ≠ "") :
    (downloadAndSaveImage imageUrl productName env).2 = [imageUrl] ∧
    ((downloadAndSaveImage imageUrl productName env).1 = none ∨
      ∃ ext, (ext = ".png" ∨ ext = ".webp" ∨ ext = ".jpg") ∧
        (downloadAndSaveImage imageUrl productName env).1 =
          some (sanitizeProductName50 productName ++ "_" ++ env.hexSuffix ++ ext)) := by
  rw [downloadAndSaveImage, if_neg h]
  by_cases hfetch : env.fetchOk = true
  · by_cases hwrite : env.writeOk = true
    · refine ⟨by simp [hfetch, hwrite],
        Or.inr ⟨if strContains (match env.contentTypeHeader with
              | some h => if h = "" then "image/jpeg" else h
              | none => "image/jpeg") "png" then ".png"
          else if strContains (match env.contentTypeHeader with
              | some h => if h = "" then "image/jpeg" else h
              | none => "image/jpeg") "webp" then ".webp"
          else ".jpg", ?_, by simp [hfetch, hwrite]⟩⟩
      by_cases hp : strContains (match env.contentTypeHeader with
          | some h => if h = "" then "image/jpeg" else h
          | none => "image/jpeg") "png"
      · simp [hp]
      · by_cases hw : strContains (match env.contentTypeHeader with
            | some h => if h = "" then "image/jpeg" else h
            | none => "image/jpeg") "webp"
        · simp [hp, hw]
        · simp [hp, hw]
    · have hw : env.writeOk = false := by simpa using hwrite
      exact ⟨by simp [hfetch, hw], Or.inl (by simp [hfetch, hw])⟩
  · have hf : env.fetchOk = false := by simpa using hfetch
    exact ⟨by simp [hf], Or.inl (by simp [hf])⟩

theorem postExtractUrl_success_shape
    (url : String) (env : ExtractEnv) (origin : String) (meta : MetadataMap)
    (details : ProductDetails) (trace : List String)
    (hne : strTrim url ≠ "")
    (hsup : strContains (strTrim url) "limeroad.com" = true)
    (hext : extractProductDetails (strTrim url) env.pageOutcome = (some details, trace)) :
    ∃ iu meta2 tr key,
      postExtractUrl (some (some url)) env origin meta =
        (.ok iu details.productUrl details.productName details.productDescription,
         meta2, tr) ∧
      (env.metaSaveOk = true →
        meta2 = setKey meta key
          ⟨key, some details.productUrl, some details.productName,
           some details.productDescription,
           if details.productImageUrl ≠ "" then some details.productImageUrl else none⟩) ∧
      ((∃ ext, (ext = ".png" ∨ ext = ".webp" ∨ ext = ".jpg") ∧
          key = sanitizeProductName50 details.productName ++ "_" ++
            env.image.hexSuffix ++ ext) ∨
        key = "placeholder_" ++ sanitizeProductName50 details.productName ++ "_" ++
          env.placeholderHex ++ ".txt") := by
  by_cases himg : details.productImageUrl = ""
  · -- no image URL: no download attempt, placeholder key
    refine ⟨details.productImageUrl,
      if env.metaSaveOk = true then
        setKey meta
          ("placeholder_" ++ sanitizeProductName50 details.productName ++ "_" ++
            env.placeholderHex ++ ".txt")
          ⟨"placeholder_" ++ sanitizeProductName50 details.productName ++ "_" ++
            env.placeholderHex ++ ".txt",
           some details.productUrl, some details.productName,
           some details.productDescription, none⟩
      else meta,
      trace,
      "placeholder_" ++ sanitizeProductName50 details.productName ++ "_" ++
        env.placeholderHex ++ ".txt", ?_, ?_, Or.inr rfl⟩
    · simp [postExtractUrl, hne, hsup, hext, himg, strStartsWith_append4]
    · intro hsave
      simp [himg, hsave]
  · obtain ⟨saved?, tr2, hD⟩ :
        ∃ s t, downloadAndSaveImage details.productImageUrl details.productName env.image =
          (s, t) := ⟨_, _, rfl⟩
    have hshape := downloadAndSaveImage_shape details.productImageUrl details.productName
      env.image himg
    rw [hD] at hshape
    rcases hshape with ⟨htr2, hsv⟩
    rcases hsv with hnone | ⟨ext, hexts, hsome⟩
    · -- download failed: placeholder key
      simp only at hnone htr2
      subst hnone htr2
      refine ⟨details.productImageUrl,
        if env.metaSaveOk = true then
          setKey meta
            ("placeholder_" ++ sanitizeProductName50 details.productName ++ "_" ++
              env.placeholderHex ++ ".txt")
            ⟨"placeholder_" ++ sanitizeProductName50 details.productName ++ "_" ++
              env.placeholderHex ++ ".txt",
             some details.productUrl, some details.productName,
             some details.productDescription, some details.productImageUrl⟩
        else meta,
        trace ++ [details.productImageUrl],
        "placeholder_" ++ sanitizeProductName50 details.productName ++ "_" ++
          env.placeholderHex ++ ".txt", ?_, ?_, Or.inr rfl⟩
      · simp [postExtractUrl, hne, hsup, hext, himg, hD, strStartsWith_append4]
      · intro hsave
        simp [himg, hsave]
    · -- download succeeded: the generated filename is the key
      simp only at hsome htr2
      subst htr2
      refine ⟨if ¬ strStartsWith (sanitizeProductName50 details.productName ++ "_" ++
            env.image.hexSuffix ++ ext) "placeholder_" then
          origin ++ "/api/images/" ++ (sanitizeProductName50 details.productName ++ "_" ++
            env.image.hexSuffix ++ ext)
        else details.productImageUrl,
        if env.metaSaveOk = true then
          setKey meta
            (sanitizeProductName50 details.productName ++ "_" ++
              env.image.hexSuffix ++ ext)
            ⟨sanitizeProductName50 details.productName ++ "_" ++ env.image.hexSuffix ++ ext,
             some details.productUrl, some details.productName,
             some details.productDescription, some details.productImageUrl⟩
        else meta,
        trace ++ [details.productImageUrl],
        sanitizeProductName50 details.productName ++ "_" ++ env.image.hexSuffix ++ ext,
        ?_, ?_, Or.inl ⟨ext, hexts, rfl⟩⟩
      · simp [postExtractUrl, hne, hsup, hext, himg, hD, hsome]
      · intro hsave
        simp [himg, hsave]

/-- Counterexample for C2: a scrape of a supported (limeroad.com) URL whose
upstream fetch answers a non-2xx status is returned to the caller as a hard
400 failure — not as a best-effort result — so the claim that timeouts,
non-2xx statuses and block pages all degrade to best-effort data is false. -/
theorem scraper_non2xx_is_hard_failure :
    strContains (strTrim "https://www.limeroad.com/cool-shirt-p123") "limeroad.com" = true ∧
    postExtractUrl (some (some "https://www.limeroad.com/cool-shirt-p123"))
        ⟨.notOk 500, ⟨true, none, "aabbccdd", true⟩, "eeff0011", true⟩ "http://h" [] =
      (.err 400 ("Failed to extract product details. The URL might be invalid " ++
        "or the page structure has changed. Please try again or check the URL."),
       [], ["https://www.limeroad.com/cool-shirt-p123"]) := by
  exact ⟨by decide, by decide⟩

/-- C2 (amended): for a supported-domain scrape, a detected block page (with a
body of at least 100 characters) and a timeout whose URL carries a
`limeroad.com/<segment>` path both degrade to a best-effort success populated
with URL-derived or default values; but a non-2xx upstream status, a 2xx
response with a body under 100 characters, and a timeout without such a path
segment are all returned to the caller as hard 400 errors. -/
theorem scraper_failure_mode_behavior
    (url : String) (env : ExtractEnv) (origin : String) (meta : MetadataMap)
    (hsup : strContains (strTrim url) "limeroad.com" = true)
    (hclean : strContains (cleanUrlOf (strTrim url)) "limeroad.com" = true) :
    (∀ html, env.pageOutcome = .ok html → 100 ≤ html.length → isBlockedHtml html = true →
      ∃ iu meta2 tr, postExtractUrl (some (some url)) env origin meta =
        (.ok iu (cleanUrlOf (strTrim url)) "LimeRoad Product" "Product from LimeRoad",
         meta2, tr)) ∧
    (∀ seg, env.pageOutcome = .timeout →
      jsMatchG true patLimeroadSeg (cleanUrlOf (strTrim url)) 1 = some seg →
      ∃ iu meta2 tr, postExtractUrl (some (some url)) env origin meta =
        (.ok iu (cleanUrlOf (strTrim url))
          (if segmentToName seg = "" then "LimeRoad Product" else segmentToName seg)
          "Product from LimeRoad", meta2, tr)) ∧
    (∀ st, env.pageOutcome = .notOk st →
      postExtractUrl (some (some url)) env origin meta =
        (.err 400 ("Failed to extract product details. The URL might be invalid " ++
          "or the page structure has changed. Please try again or check the URL."),
         meta, [cleanUrlOf (strTrim url)])) ∧
    (∀ html, env.pageOutcome = .ok html → html.length < 100 →
      postExtractUrl (some (some url)) env origin meta =
        (.err 400 ("Failed to extract product details. The URL might be invalid " ++
          "or the page structure has changed. Please try again or check the URL."),
         meta, [cleanUrlOf (strTrim url)])) ∧
    (env.pageOutcome = .timeout →
      jsMatchG true patLimeroadSeg (cleanUrlOf (strTrim url)) 1 = none →
      postExtractUrl (some (some url)) env origin meta =
        (.err 400 ("Failed to extract product details. The URL might be invalid " ++
          "or the page structure has changed. Please try again or check the URL."),
         meta, [cleanUrlOf (strTrim url)])) := by
  have hne : strTrim url ≠ "" := by
    intro h0
    rw [h0] at hsup
    exact absurd hsup (by decide)
  refine ⟨?_, ?_, ?_, ?_, ?_⟩
  · intro html hok hlen hblk
    have hext : extractProductDetails (strTrim url) env.pageOutcome =
        (some ⟨"LimeRoad Product", "Product from LimeRoad",
          "https://fakestoreapi.com/img/81fPKd-2AYL._AC_SL1500_t.png",
          cleanUrlOf (strTrim url)⟩, [cleanUrlOf (strTrim url)]) := by
      rw [hok, extractProductDetails]
      simp [hclean, hblk, Nat.not_lt.mpr hlen]
    obtain ⟨iu, m2, tr, key, heq, _, _⟩ :=
      postExtractUrl_success_shape url env origin meta _ _ hne hsup hext
    exact ⟨iu, m2, tr, heq⟩
  · intro seg ht hseg
    have hext : extractProductDetails (strTrim url) env.pageOutcome =
        (some ⟨if segmentToName seg = "" then "LimeRoad Product" else segmentToName seg,
          "Product from LimeRoad", "", cleanUrlOf (strTrim url)⟩,
         [cleanUrlOf (strTrim url)]) := by
      rw [ht, extractProductDetails]
      simp [hclean, hseg]
    obtain ⟨iu, m2, tr, key, heq, _, _⟩ :=
      postExtractUrl_success_shape url env origin meta _ _ hne hsup hext
    exact ⟨iu, m2, tr, heq⟩
  · intro st hst
    have hext : extractProductDetails (strTrim url) env.pageOutcome =
        (none, [cleanUrlOf (strTrim url)]) := by
      rw [hst, extractProductDetails]
      simp [hclean]
    rw [postExtractUrl]
    simp [hne, hsup, hext]
  · intro html hok hlen
    have hext : extractProductDetails (strTrim url) env.pageOutcome =
        (none, [cleanUrlOf (strTrim url)]) := by
      rw [hok, extractProductDetails]
      simp [hclean, hlen]
    rw [postExtractUrl]
    simp [hne, hsup, hext]
  · intro ht hseg
    have hext : extractProductDetails (strTrim url) env.pageOutcome =
        (none, [cleanUrlOf (strTrim url)]) := by
      rw [ht, extractProductDetails]
      simp [hclean, hseg]
    rw [postExtractUrl]
    simp [hne, hsup, hext]

/-- Witness for C2 (amended): at a concrete LimeRoad URL, a blocked-page body
yields a best-effort success with the default name and description, while a
non-2xx upstream status yields a hard 400. -/
theorem scraper_failure_mode_behavior_witness :
    (∃ iu meta2 tr,
      postExtractUrl (some (some "https://www.limeroad.com/cool-shirt-p123"))
          ⟨.ok ("blocked xxxxxxxxxxxxxxxxxxxxxxxxxxxxxxxxxxxxxxxxxxxxxxxxxx" ++
            "xxxxxxxxxxxxxxxxxxxxxxxxxxxxxxxxxxxxxxxxxx"),
           ⟨true, none, "aabbccdd", true⟩, "eeff0011", true⟩ "http://h" [] =
        (.ok iu "https://www.limeroad.com/cool-shirt-p123" "LimeRoad Product"
          "Product from LimeRoad", meta2, tr)) ∧
    postExtractUrl (some (some "https://www.limeroad.com/cool-shirt-p123"))
        ⟨.notOk 500, ⟨true, none, "aabbccdd", true⟩, "eeff0011", true⟩ "http://h" [] =
      (.err 400 ("Failed to extract product details. The URL might be invalid " ++
        "or the page structure has changed. Please try again or check the URL."),
       [], ["https://www.limeroad.com/cool-shirt-p123"]) := by
  have hcl : cleanUrlOf (strTrim "https://www.limeroad.com/cool-shirt-p123") =
      "https://www.limeroad.com/cool-shirt-p123" := by decide
  constructor
  · have h := (scraper_failure_mode_behavior "https://www.limeroad.com/cool-shirt-p123"
      ⟨.ok ("blocked xxxxxxxxxxxxxxxxxxxxxxxxxxxxxxxxxxxxxxxxxxxxxxxxxx" ++
        "xxxxxxxxxxxxxxxxxxxxxxxxxxxxxxxxxxxxxxxxxx"),
       ⟨true, none, "aabbccdd", true⟩, "eeff0011", true⟩ "http://h" []
      (by decide) (by rw [hcl]; decide)).1
      ("blocked xxxxxxxxxxxxxxxxxxxxxxxxxxxxxxxxxxxxxxxxxxxxxxxxxx" ++
        "xxxxxxxxxxxxxxxxxxxxxxxxxxxxxxxxxxxxxxxxxx") rfl (by decide) (by decide)
    rw [hcl] at h
    exact h
  · have h := (scraper_failure_mode_behavior "https://www.limeroad.com/cool-shirt-p123"
      ⟨.notOk 500, ⟨true, none, "aabbccdd", true⟩, "eeff0011", true⟩ "http://h" []
      (by decide) (by rw [hcl]; decide)).2.2.1 500 rfl
    rw [hcl] at h
    exact h

set_option maxRecDepth 10000 in
set_option maxHeartbeats 4000000 in
/-- Counterexample for C5: the scraper does not strip query strings from
extracted image URLs.  End to end, a LimeRoad page whose `og:image` carries
`?v=12345` comes back from `extractProductDetails` with the query string
intact, and the code's normalization step differs from the spec-modelled
normalization (which strips the query) at that URL. -/
theorem image_url_query_not_stripped :
    (extractProductDetails "https://www.limeroad.com/scarf-p9"
        (.ok ("<meta property=\"og:image\" content=\"https://cdn.example.com/img.jpg?v=12345\"/>" ++
          "<p>padding padding padding padding</p>"))).1 =
      some ⟨"Scarf P9", "Product from LimeRoad",
        "https://cdn.example.com/img.jpg?v=12345", "https://www.limeroad.com/scarf-p9"⟩ ∧
    normalizeLimeroadImageUrl "https://cdn.example.com/img.jpg?v=12345" =
      "https://cdn.example.com/img.jpg?v=12345" ∧
    specNormalizeImageUrl "https://www.limeroad.com" "https://cdn.example.com/img.jpg?v=12345" =
      "https://cdn.example.com/img.jpg" ∧
    normalizeLimeroadImageUrl "https://cdn.example.com/img.jpg?v=12345" ≠
      specNormalizeImageUrl "https://www.limeroad.com" "https://cdn.example.com/img.jpg?v=12345" := by
  refine ⟨by decide, by decide, by decide, by decide⟩

/-- C5 (amended): extracted image URLs are normalized by prefixing
protocol-relative URLs with `https:` and root-relative URLs with the site's
origin (`www.limeroad.com`, and `www.shopclues.com` / `webscraper.io` in the
earlier route variant), leaving every other URL unchanged; query strings are
preserved, not stripped. -/
theorem image_url_normalization (u : String) :
    (strStartsWith u "//" = true →
      normalizeLimeroadImageUrl u = "https:" ++ u ∧
      normalizeShopcluesImageUrl u = "https:" ++ u ∧
      normalizeWebscraperImageUrl u = "https:" ++ u) ∧
    (strStartsWith u "//" = false → strStartsWith u "/" = true →
      normalizeLimeroadImageUrl u = "https://www.limeroad.com" ++ u ∧
      normalizeShopcluesImageUrl u = "https://www.shopclues.com" ++ u ∧
      normalizeWebscraperImageUrl u = "https://webscraper.io" ++ u) ∧
    (strStartsWith u "//" = false → strStartsWith u "/" = false →
      normalizeLimeroadImageUrl u = u) ∧
    (strContains u "?" = true → strContains (normalizeLimeroadImageUrl u) "?" = true) := by
  refine ⟨?_, ?_, ?_, ?_⟩
  · intro h
    have hu : u ≠ "" := by
      intro h0
      rw [h0] at h
      exact absurd h (by decide)
    exact ⟨by simp [normalizeLimeroadImageUrl, hu, h],
      by simp [normalizeShopcluesImageUrl, hu, h],
      by simp [normalizeWebscraperImageUrl, h]⟩
  · intro h2 h1
    have hu : u ≠ "" := by
      intro h0
      rw [h0] at h1
      exact absurd h1 (by decide)
    exact ⟨by simp [normalizeLimeroadImageUrl, hu, h2, h1],
      by simp [normalizeShopcluesImageUrl, hu, h2, h1],
      by simp [normalizeWebscraperImageUrl, h2, h1]⟩
  · intro h2 h1
    by_cases hu : u = ""
    · simp [normalizeLimeroadImageUrl, hu]
    · simp [normalizeLimeroadImageUrl, hu, h2, h1]
  · intro hq
    by_cases hu : u = ""
    · rw [hu] at hq
      exact absurd hq (by decide)
    · rw [normalizeLimeroadImageUrl]
      by_cases h2 : strStartsWith u "//"
      · rw [if_pos hu, if_pos h2]
        exact containsL_append_left hq
      · by_cases h1 : strStartsWith u "/"
        · rw [if_pos hu, if_neg h2, if_pos h1]
          exact containsL_append_left hq
        · rw [if_pos hu, if_neg h2, if_neg h1]
          exact hq

/-- Witness for C5 (amended): the three normalization shapes and the query
preservation, each at a concrete URL. -/
theorem image_url_normalization_witness :
    normalizeLimeroadImageUrl "//cdn.x.com/a.jpg?b=2" = "https://cdn.x.com/a.jpg?b=2" ∧
    normalizeLimeroadImageUrl "/p/img.png?v=1" = "https://www.limeroad.com/p/img.png?v=1" ∧
    normalizeLimeroadImageUrl "https://a.b/c.jpg" = "https://a.b/c.jpg" ∧
    strContains (normalizeLimeroadImageUrl "/p/img.png?v=1") "?" = true :=
  ⟨((image_url_normalization "//cdn.x.com/a.jpg?b=2").1 (by decide)).1,
   ((image_url_normalization "/p/img.png?v=1").2.1 (by decide) (by decide)).1,
   (image_url_normalization "https://a.b/c.jpg").2.2.1 (by decide) (by decide),
   (image_url_normalization "/p/img.png?v=1").2.2.2 (by decide)⟩

/-- C6: a successful `DELETE /api/images/<filename>` removes both the stored
object and the metadata record keyed by that filename, so no entry of the next
listing carries the deleted name (local branch); in the blob branch the
matched blob is deleted and the metadata record keyed by the route parameter
is gone as well. -/
theorem delete_removes_object_and_metadata :
    (∀ fname files meta files2 meta2,
      files.Nodup → (meta.map Prod.fst).Nodup →
      deleteImageLocal fname files meta = (.okFile fname, files2, meta2) →
      fname ∉ files2 ∧ getKey meta2 fname = none ∧
        ∀ origin stats e, e ∈ listImages meta2 origin stats files2 → e.filename ≠ fname) ∧
    (∀ fname dec blobs meta b blobs2 meta2,
      blobs.Nodup → (meta.map Prod.fst).Nodup →
      deleteImageBlob fname dec blobs meta = (.okFile b, blobs2, meta2) →
      b ∈ blobs ∧ b ∉ blobs2 ∧ getKey meta2 fname = none) := by
  constructor
  · intro fname files meta files2 meta2 hnf hnm hdel
    rw [deleteImageLocal] at hdel
    by_cases h1 : fname = ""
    · rw [if_pos h1] at hdel
      exact absurd hdel (by simp)
    rw [if_neg h1] at hdel
    by_cases h2 : ALLOWED_EXTENSIONS.contains (strToLower (pathExtname fname)) = true
    case neg =>
      rw [if_pos (by simpa using h2)] at hdel
      exact absurd hdel (by simp)
    rw [if_neg (not_not_intro h2)] at hdel
    by_cases h3 : files.contains fname = true
    case neg =>
      rw [if_pos (by simpa using h3)] at hdel
      exact absurd hdel (by simp)
    rw [if_neg (not_not_intro h3)] at hdel
    rw [Prod.mk.injEq, Prod.mk.injEq] at hdel
    obtain ⟨-, hfe, hme⟩ := hdel
    refine ⟨?_, ?_, ?_⟩
    · rw [← hfe]
      exact hnf.not_mem_erase
    · rw [← hme]
      cases hk : getKey meta fname with
      | none => exact hk
      | some r => exact getKey_eraseKey_self hnm
    · intro origin stats e he hef
      have hm := mem_listImages_filename he
      rw [hef, ← hfe] at hm
      exact hnf.not_mem_erase hm.1
  · intro fname dec blobs meta b blobs2 meta2 hnb hnm hdel
    rw [deleteImageBlob] at hdel
    by_cases h1 : fname = ""
    · rw [if_pos h1] at hdel
      exact absurd hdel (by simp)
    rw [if_neg h1] at hdel
    by_cases h2 : ALLOWED_EXTENSIONS.contains (strToLower (pathExtname fname)) = true
    case neg =>
      rw [if_pos (by simpa using h2)] at hdel
      exact absurd hdel (by simp)
    rw [if_neg (not_not_intro h2)] at hdel
    cases hfind : blobs.find? (fun bl =>
        let bf := blobFilename bl
        bf = dec || bf = fname || strToLower bf = strToLower dec) with
    | none =>
      rw [hfind] at hdel
      exact absurd hdel (by simp)
    | some bb =>
      rw [hfind] at hdel
      simp only [Prod.mk.injEq, ServeResponse.okFile.injEq] at hdel
      obtain ⟨hb, hblobs, hmeta⟩ := hdel
      subst hb
      refine ⟨List.mem_of_find?_eq_some hfind, ?_, ?_⟩
      · rw [← hblobs]
        exact hnb.not_mem_erase
      · rw [← hmeta]
        cases hk : getKey meta fname with
        | none => exact hk
        | some r => exact getKey_eraseKey_self hnm

/-- Witness for C6: deleting `a.png` from a store holding `a.png` and `b.jpg`
with a metadata record under `a.png` leaves a store and metadata with no trace
of the name, in both branches. -/
theorem delete_removes_object_and_metadata_witness :
    ("a.png" ∉ (["b.jpg"] : List String) ∧
      getKey [] "a.png" = none ∧
      ∀ origin stats e,
        e ∈ listImages [] origin stats ["b.jpg"] → e.filename ≠ "a.png") ∧
    ("a.png" ∈ (["a.png", "b.jpg"] : List String) ∧ "a.png" ∉ (["b.jpg"] : List String) ∧
      getKey [] "a.png" = none) := by
  constructor
  · exact delete_removes_object_and_metadata.1 "a.png" ["a.png", "b.jpg"]
      [("a.png", ⟨"a.png", none, some "a", none, none⟩)] ["b.jpg"] []
      (by decide) (by decide) (by decide)
  · exact delete_removes_object_and_metadata.2 "a.png" "a.png" ["a.png", "b.jpg"]
      [("a.png", ⟨"a.png", none, some "a", none, none⟩)] "a.png" ["b.jpg"] []
      (by decide) (by decide) (by decide)

theorem charOfNat_toNat {n : Nat} (h : n < 55296) : (Char.ofNat n).toNat = n := by
  have hv : n.isValidChar := Or.inl h
  simp [Char.ofNat, Char.toNat, hv, Char.ofNatAux, UInt32.toNat, BitVec.toNat_ofNatLt]

theorem toLower_eq_of_lt {c t : Char} (ht : t.toNat < 97) (h : c.toLower = t) : c = t := by
  rw [Char.toLower] at h
  split at h
  · rename_i hc
    have hv := congrArg Char.toNat h
    rw [charOfNat_toNat (by omega)] at hv
    omega
  · exact h

theorem mem_collapseA {c : Char} {l : Str} :
    ∀ {b : Bool}, c ∈ collapseUnderscoresA b l → c ∈ l ∨ c = '_' := by
  induction l with
  | nil => intro b h; simp [collapseUnderscoresA] at h
  | cons x xs ih =>
    intro b h
    rw [collapseUnderscoresA] at h
    by_cases hx : x = '_'
    · rw [if_pos hx] at h
      cases b with
      | true =>
        rw [if_pos rfl] at h
        rcases ih h with h2 | h2
        · exact Or.inl (List.mem_cons_of_mem _ h2)
        · exact Or.inr h2
      | false =>
        rw [if_neg (by decide)] at h
        simp only [List.mem_cons] at h
        rcases h with h | h
        · exact Or.inr h
        · rcases ih h with h2 | h2
          · exact Or.inl (List.mem_cons_of_mem _ h2)
          · exact Or.inr h2
    · rw [if_neg hx] at h
      simp only [List.mem_cons] at h
      rcases h with h | h
      · exact Or.inl (by simp [h])
      · rcases ih h with h2 | h2
        · exact Or.inl (List.mem_cons_of_mem _ h2)
        · exact Or.inr h2

theorem sanitizeChar_ne_slash (c : Char) : sanitizeChar c ≠ '/' := by
  rw [sanitizeChar]
  split
  · rename_i hcond
    intro he
    rw [he] at hcond
    revert hcond
    decide
  · decide

theorem no_slash_sanitize50 (s : String) : '/' ∉ (sanitizeProductName50 s).data := by
  intro h
  rw [sanitizeProductName50] at h
  have h2 := List.mem_of_mem_take h
  rw [toLowerL] at h2
  obtain ⟨d, hd, he⟩ := List.mem_map.mp h2
  have hds : d = '/' := toLower_eq_of_lt (by decide) he
  rw [hds] at hd
  rcases mem_collapseA hd with hm | hu
  · obtain ⟨e, _, hse⟩ := List.mem_map.mp hm
    exact sanitizeChar_ne_slash e hse
  · exact absurd hu (by decide)

theorem isHexSuffix_not_mem {hex : String} (h : isHexSuffix hex) :
    '_' ∉ hex.data ∧ '.' ∉ hex.data ∧ '/' ∉ hex.data := by
  refine ⟨fun hm => ?_, fun hm => ?_, fun hm => ?_⟩ <;>
    exact absurd (h.2 _ hm) (by decide)

theorem pathExtname_of_shape {s : String} {pre tail : Str}
    (hs : s.data = pre ++ '.' :: tail) (hpre : pre ≠ []) (h1 : '/' ∉ pre)
    (h2 : '/' ∉ tail) (h3 : '.' ∉ tail) :
    pathExtname s = List.asString ('.' :: tail) := by
  rw [pathExtname, hs, pathExtnameL_concat hpre h1 h2 h3]

theorem pathBasename_of_shape {s ext : String} {pre tail : Str}
    (hs : s.data = pre ++ '.' :: tail) (hext : ext.data = '.' :: tail)
    (hpre : pre ≠ []) (h1 : '/' ∉ pre) (h2 : '/' ∉ tail) :
    pathBasename s ext = List.asString pre := by
  rw [pathBasename, hs, hext, pathBasenameL_concat hpre h1 h2]

theorem photo_fn_data (hex : String) :
    ("photo_" ++ hex ++ ".png").data =
      ("photo".data ++ '_' :: hex.data) ++ '.' :: "png".data := by
  simp only [String.data_append, List.append_assoc]
  rfl

theorem no_slash_photo_pre {hex : String} (h : isHexSuffix hex) :
    '/' ∉ "photo".data ++ '_' :: hex.data := by
  intro hm
  rcases List.mem_append.mp hm with h1 | h1
  · exact absurd h1 (by decide)
  · rcases List.mem_cons.mp h1 with h2 | h2
    · exact absurd h2 (by decide)
    · exact (isHexSuffix_not_mem h).2.2 h2

theorem pathExtname_photo (hex : String) (h : isHexSuffix hex) :
    pathExtname ("photo_" ++ hex ++ ".png") = ".png" :=
  pathExtname_of_shape (photo_fn_data hex) (by simp) (no_slash_photo_pre h)
    (by decide) (by decide)

theorem pathBasename_photo (hex : String) (h : isHexSuffix hex) :
    pathBasename ("photo_" ++ hex ++ ".png") ".png" =
      List.asString ("photo".data ++ '_' :: hex.data) :=
  pathBasename_of_shape (photo_fn_data hex) (by decide) (by simp)
    (no_slash_photo_pre h) (by decide)

theorem splitChar_photo_pre (hex : String) (h : isHexSuffix hex) :
    splitChar '_' (List.asString ("photo".data ++ '_' :: hex.data)) =
      ["photo", List.asString hex.data] := by
  rw [splitChar]
  rw [show (List.asString ("photo".data ++ '_' :: hex.data)).data =
    "photo".data ++ '_' :: hex.data from rfl]
  rw [splitCharL_append_sep (by decide : ('_' : Char) ∉ "photo".data)]
  rw [splitCharL_of_not_mem (isHexSuffix_not_mem h).1]
  rfl

theorem extractProductName_photo (hex : String) (h : isHexSuffix hex) :
    extractProductName ("photo_" ++ hex ++ ".png") = "photo" := by
  rw [extractProductName]
  rw [pathExtname_photo hex h, pathBasename_photo hex h, splitChar_photo_pre hex h]
  rfl

theorem strReplaceOnce_photo (hex : String) (h : isHexSuffix hex) :
    strReplaceOnce ("photo_" ++ hex ++ ".png") ".png" "" =
      List.asString ("photo".data ++ '_' :: hex.data) := by
  rw [strReplaceOnce]
  rw [show ("photo_" ++ hex ++ ".png").data =
    ("photo".data ++ '_' :: hex.data) ++ '.' :: "png".data from photo_fn_data hex]
  rw [show (".png" : String).data = '.' :: "png".data from rfl,
    show ("" : String).data = [] from rfl]
  rw [replaceOnceL_strip ?hne]
  case hne =>
    intro hm
    rcases List.mem_append.mp hm with h1 | h1
    · exact absurd h1 (by decide)
    · rcases List.mem_cons.mp h1 with h2 | h2
      · exact absurd h2 (by decide)
      · exact (isHexSuffix_not_mem h).2.1 h2

theorem photo_fn_ne_empty (hex : String) : ("photo_" ++ hex ++ ".png") ≠ "" := by
  intro he
  have := congrArg String.data he
  rw [photo_fn_data hex] at this
  simp at this

theorem lastSegment_no_slash {s : String} (h : '/' ∉ s.data) (hne : s.data ≠ []) :
    lastSegment s = s := by
  rw [lastSegment, lastSegmentL, splitCharL_of_not_mem h, getLast!_single, if_neg hne]
  rfl

theorem isValidImageFile_photo (hex : String) (h : isHexSuffix hex) :
    isValidImageFile ("photo_" ++ hex ++ ".png") = true := by
  rw [isValidImageFile, pathExtname_photo hex h]
  decide

theorem generateUniqueFilename_photo (hex : String) :
    generateUniqueFilename "photo.png" hex = "photo_" ++ hex ++ ".png" := by
  rw [generateUniqueFilename,
    show pathExtname "photo.png" = ".png" from by decide,
    show pathBasename "photo.png" ".png" = "photo" from by decide,
    show sanitizeFilename "photo" = "photo" from by decide,
    show ("photo" : String) ++ "_" = "photo_" from rfl]

theorem processOneFile_photo (hex : String) (h : isHexSuffix hex) :
    processOneFile none ⟨"photo.png", "image/png", 512000, hex, true⟩ =
      .inl (⟨"photo_" ++ hex ++ ".png", "photo", none⟩,
        "photo_" ++ hex ++ ".png",
        ⟨"photo_" ++ hex ++ ".png", none, some "photo", none, none⟩) := by
  simp [processOneFile,
    show fileTypeOk ⟨"photo.png", "image/png", 512000, hex, true⟩ = true from rfl,
    MAX_FILE_SIZE, generateUniqueFilename_photo, extractProductName_photo hex h]

theorem uploadPost_photo (hex : String) (h : isHexSuffix hex) :
    uploadPost [⟨"photo.png", "image/png", 512000, hex, true⟩] none [] =
      (.ok 1 ["photo_" ++ hex ++ ".png"] [],
       [("photo_" ++ hex ++ ".png",
         ⟨"photo_" ++ hex ++ ".png", none, some "photo", none, none⟩)]) := by
  rw [uploadPost]
  rw [if_neg (by simp)]
  rw [processFiles, processOneFile_photo hex h, processFiles]
  rfl

theorem getKey_singleton (k : String) (v : ImageMetadata) : getKey [(k, v)] k = some v := by
  simp [getKey]

theorem findMatchingKey_photo (hex : String) (h : isHexSuffix hex) (v : ImageMetadata) :
    findMatchingKey [("photo_" ++ hex ++ ".png", v)]
        ["photo", List.asString hex.data] = some ("photo_" ++ hex ++ ".png") := by
  rw [findMatchingKey]
  simp only [List.map_cons, List.map_nil, List.find?]
  rw [pathExtname_photo hex h, strReplaceOnce_photo hex h, splitChar_photo_pre hex h]
  simp

theorem splitChar_photo_pre_cons (hex : String) (h : isHexSuffix hex) :
    splitChar '_' (List.asString
        ('p' :: 'h' :: 'o' :: 't' :: 'o' :: '_' :: hex.data)) =
      ["photo", List.asString hex.data] :=
  splitChar_photo_pre hex h

theorem entryFor_photo (hex : String) (h : isHexSuffix hex) (origin : String)
    (stat : FileStat) :
    (entryFor [("photo_" ++ hex ++ ".png",
        ⟨"photo_" ++ hex ++ ".png", none, some "photo", none, none⟩)]
      origin stat ("photo_" ++ hex ++ ".png")).productName = "photo" := by
  rw [entryFor, pathExtname_photo hex h,
    show strToLower ".png" = ".png" from by decide,
    strReplaceOnce_photo hex h]
  simp [getKey_singleton, splitChar_photo_pre_cons hex h, findMatchingKey_photo hex h,
    jsTruthy]

theorem no_slash_photo_fn (hex : String) (h : isHexSuffix hex) :
    '/' ∉ ("photo_" ++ hex ++ ".png").data := by
  rw [photo_fn_data hex]
  intro hm
  rcases List.mem_append.mp hm with h1 | h1
  · exact no_slash_photo_pre h h1
  · rcases List.mem_cons.mp h1 with h2 | h2
    · exact absurd h2 (by decide)
    · exact absurd h2 (by decide)

theorem photo_fn_data_ne_nil (hex : String) : ("photo_" ++ hex ++ ".png").data ≠ [] := by
  rw [photo_fn_data hex]
  simp

theorem lastSegment_photo (hex : String) (h : isHexSuffix hex) :
    lastSegment ("photo_" ++ hex ++ ".png") = "photo_" ++ hex ++ ".png" :=
  lastSegment_no_slash (no_slash_photo_fn hex h) (photo_fn_data_ne_nil hex)

theorem serveImageLocal_photo (hex : String) (h : isHexSuffix hex) :
    serveImageLocal ("photo_" ++ hex ++ ".png") ("photo_" ++ hex ++ ".png")
      ["photo_" ++ hex ++ ".png"] = .okFile ("photo_" ++ hex ++ ".png") := by
  rw [serveImageLocal]
  rw [if_neg (photo_fn_ne_empty hex)]
  rw [pathExtname_photo hex h]
  rw [if_neg (not_not_intro (by decide :
    ALLOWED_EXTENSIONS.contains (strToLower ".png") = true))]
  rw [if_pos (by simp : List.contains ["photo_" ++ hex ++ ".png"]
    ("photo_" ++ hex ++ ".png") = true)]

theorem findBlobCascade_photo (hex : String) (h : isHexSuffix hex) :
    findBlobCascade ("photo_" ++ hex ++ ".png") ("photo_" ++ hex ++ ".png")
      ["photo_" ++ hex ++ ".png"] = some ("photo_" ++ hex ++ ".png") := by
  rw [findBlobCascade]
  have hstage : stageMatch ("photo_" ++ hex ++ ".png") ("photo_" ++ hex ++ ".png") 0
      ("photo_" ++ hex ++ ".png") = true := by
    rw [stageMatch, blobFilename, lastSegment_photo hex h]
    simp
  rw [show List.find? (stageMatch ("photo_" ++ hex ++ ".png") ("photo_" ++ hex ++ ".png") 0)
      ["photo_" ++ hex ++ ".png"] = some ("photo_" ++ hex ++ ".png") by
    simp [List.find?, hstage]]

theorem listImages_photo_mem (hex : String) (h : isHexSuffix hex) (origin : String)
    (stats : String → FileStat) :
    entryFor [("photo_" ++ hex ++ ".png",
        ⟨"photo_" ++ hex ++ ".png", none, some "photo", none, none⟩)]
      origin (stats ("photo_" ++ hex ++ ".png")) ("photo_" ++ hex ++ ".png") ∈
    listImages [("photo_" ++ hex ++ ".png",
        ⟨"photo_" ++ hex ++ ".png", none, some "photo", none, none⟩)]
      origin stats ["photo_" ++ hex ++ ".png"] := by
  rw [listImages, listImagesEntries]
  rw [show List.filter isValidImageFile ["photo_" ++ hex ++ ".png"] =
    ["photo_" ++ hex ++ ".png"] by simp [List.filter, isValidImageFile_photo hex h]]
  simp [jsSortBy, jsInsert]

/-- C7: uploading a valid 500KB `photo.png` succeeds with the generated name
`photo_` followed by the hex suffix and `.png`; the upload response reports one
file and records metadata with productName `"photo"` (the base name recovered by
`extractProductName`, i.e. stripping the trailing hex suffix); the returned
identifier resolves via the get-by-name path (both the local serve branch and
the blob cascade); and the listing contains an entry for it whose filename is
the identifier and whose productName is `"photo"`. -/
theorem photo_upload_roundtrip (hex : String) (h : isHexSuffix hex) :
    generateUniqueFilename "photo.png" hex = "photo_" ++ hex ++ ".png" ∧
    uploadPost [⟨"photo.png", "image/png", 512000, hex, true⟩] none [] =
      (.ok 1 ["photo_" ++ hex ++ ".png"] [],
       [("photo_" ++ hex ++ ".png",
         ⟨"photo_" ++ hex ++ ".png", none, some "photo", none, none⟩)]) ∧
    extractProductName ("photo_" ++ hex ++ ".png") = "photo" ∧
    serveImageLocal ("photo_" ++ hex ++ ".png") ("photo_" ++ hex ++ ".png")
      ["photo_" ++ hex ++ ".png"] = .okFile ("photo_" ++ hex ++ ".png") ∧
    findBlobCascade ("photo_" ++ hex ++ ".png") ("photo_" ++ hex ++ ".png")
      ["photo_" ++ hex ++ ".png"] = some ("photo_" ++ hex ++ ".png") ∧
    ∀ origin stats,
      (entryFor [("photo_" ++ hex ++ ".png",
          ⟨"photo_" ++ hex ++ ".png", none, some "photo", none, none⟩)]
        origin (stats ("photo_" ++ hex ++ ".png"))
        ("photo_" ++ hex ++ ".png")).filename = "photo_" ++ hex ++ ".png" ∧
      (entryFor [("photo_" ++ hex ++ ".png",
          ⟨"photo_" ++ hex ++ ".png", none, some "photo", none, none⟩)]
        origin (stats ("photo_" ++ hex ++ ".png"))
        ("photo_" ++ hex ++ ".png")).productName = "photo" ∧
      entryFor [("photo_" ++ hex ++ ".png",
          ⟨"photo_" ++ hex ++ ".png", none, some "photo", none, none⟩)]
        origin (stats ("photo_" ++ hex ++ ".png")) ("photo_" ++ hex ++ ".png") ∈
        listImages [("photo_" ++ hex ++ ".png",
          ⟨"photo_" ++ hex ++ ".png", none, some "photo", none, none⟩)]
        origin stats ["photo_" ++ hex ++ ".png"] :=
  ⟨generateUniqueFilename_photo hex, uploadPost_photo hex h,
   extractProductName_photo hex h, serveImageLocal_photo hex h,
   findBlobCascade_photo hex h,
   fun origin stats =>
     ⟨entryFor_filename _ _ _ _, entryFor_photo hex h origin _,
      listImages_photo_mem hex h origin stats⟩⟩

/-- Witness for C7 at the concrete suffix `0123456789abcdef`. -/
theorem photo_upload_roundtrip_witness :
    isHexSuffix "0123456789abcdef" ∧
    uploadPost [⟨"photo.png", "image/png", 512000, "0123456789abcdef", true⟩] none [] =
      (.ok 1 ["photo_" ++ "0123456789abcdef" ++ ".png"] [],
       [("photo_" ++ "0123456789abcdef" ++ ".png",
         ⟨"photo_" ++ "0123456789abcdef" ++ ".png", none, some "photo", none, none⟩)]) ∧
    extractProductName ("photo_" ++ "0123456789abcdef" ++ ".png") = "photo" ∧
    serveImageLocal ("photo_" ++ "0123456789abcdef" ++ ".png")
      ("photo_" ++ "0123456789abcdef" ++ ".png")
      ["photo_" ++ "0123456789abcdef" ++ ".png"] =
      .okFile ("photo_" ++ "0123456789abcdef" ++ ".png") :=
  ⟨by unfold isHexSuffix; exact (by decide),
   (photo_upload_roundtrip "0123456789abcdef" (by unfold isHexSuffix; exact (by decide))).2.1,
   (photo_upload_roundtrip "0123456789abcdef" (by unfold isHexSuffix; exact (by decide))).2.2.1,
   (photo_upload_roundtrip "0123456789abcdef" (by unfold isHexSuffix; exact (by decide))).2.2.2.1⟩

theorem endsWith_append_self (s post : String) : strEndsWith (s ++ post) post = true := by
  rw [strEndsWith, endsWithL, List.isSuffixOf_iff_suffix]
  exact ⟨s.data, by simp⟩

theorem imgkey_data (n hex ext : String) (t : Str) (ht : ext.data = '.' :: t) :
    (sanitizeProductName50 n ++ "_" ++ hex ++ ext).data =
      ((sanitizeProductName50 n).data ++ '_' :: hex.data) ++ '.' :: t := by
  simp only [String.data_append, ht, List.append_assoc]
  rfl

theorem no_slash_imgkey_pre {n hex : String} (h : isHexSuffix hex) :
    '/' ∉ (sanitizeProductName50 n).data ++ '_' :: hex.data := by
  intro hm
  rcases List.mem_append.mp hm with h1 | h1
  · exact no_slash_sanitize50 n h1
  · rcases List.mem_cons.mp h1 with h2 | h2
    · exact absurd h2 (by decide)
    · exact (isHexSuffix_not_mem h).2.2 h2

theorem isValidImageFile_imgkey (n hex ext : String) (hhex : isHexSuffix hex)
    (he : ext = ".png" ∨ ext = ".webp" ∨ ext = ".jpg") :
    isValidImageFile (sanitizeProductName50 n ++ "_" ++ hex ++ ext) = true := by
  rcases he with he | he | he <;> subst he <;>
    rw [isValidImageFile,
      pathExtname_of_shape (imgkey_data n hex _ _ rfl) (by simp)
        (no_slash_imgkey_pre hhex) (by decide) (by decide)] <;>
    decide

theorem phkey_data (n hex : String) :
    ("placeholder_" ++ sanitizeProductName50 n ++ "_" ++ hex ++ ".txt").data =
      ("placeholder_".data ++ (sanitizeProductName50 n).data ++ '_' :: hex.data) ++
        '.' :: "txt".data := by
  simp only [String.data_append, List.append_assoc]
  rfl

theorem isValidImageFile_phkey (n hex : String) (hhex : isHexSuffix hex) :
    isValidImageFile ("placeholder_" ++ sanitizeProductName50 n ++ "_" ++ hex ++ ".txt")
      = false := by
  rw [isValidImageFile,
    pathExtname_of_shape (phkey_data n hex) (by simp)
      (by
        intro hm
        rcases List.mem_append.mp hm with h1 | h1
        · rcases List.mem_append.mp h1 with h2 | h2
          · exact absurd h2 (by decide)
          · exact no_slash_sanitize50 n h2
        · rcases List.mem_cons.mp h1 with h2 | h2
          · exact absurd h2 (by decide)
          · exact (isHexSuffix_not_mem hhex).2.2 h2)
      (by decide) (by decide)]
  decide

/-- C9: every successful extract-url request persists one metadata record,
keyed by the saved image filename (a valid image extension) when the download
succeeded, or by a `placeholder_` key ending in `.txt` when it did not; and
since the listing filters files through `isValidImageFile`, no entry of the
listing ever carries a key whose extension is outside the allowed image set —
in particular no placeholder key. -/
theorem extract_metadata_key_and_listing_exclusion
    (url : String) (env : ExtractEnv) (origin : String) (meta : MetadataMap)
    (details : ProductDetails) (trace : List String)
    (hne : strTrim url ≠ "")
    (hsup : strContains (strTrim url) "limeroad.com" = true)
    (hext : extractProductDetails (strTrim url) env.pageOutcome = (some details, trace))
    (hsave : env.metaSaveOk = true)
    (hhex : isHexSuffix env.image.hexSuffix)
    (hphex : isHexSuffix env.placeholderHex) :
    (∃ iu meta2 tr key,
      postExtractUrl (some (some url)) env origin meta =
        (.ok iu details.productUrl details.productName details.productDescription,
         meta2, tr) ∧
      meta2 = setKey meta key
        ⟨key, some details.productUrl, some details.productName,
         some details.productDescription,
         if details.productImageUrl ≠ "" then some details.productImageUrl else none⟩ ∧
      (isValidImageFile key = true ∨
        (strStartsWith key "placeholder_" = true ∧ strEndsWith key ".txt" = true ∧
         isValidImageFile key = false))) ∧
    (∀ (k : String) (m : MetadataMap) (o : String) (st : String → FileStat)
        (files : List String), isValidImageFile k = false →
        ∀ e ∈ listImages m o st files, e.filename ≠ k) := by
  constructor
  · obtain ⟨iu, meta2, tr, key, hpost, hmeta, hkey⟩ :=
      postExtractUrl_success_shape url env origin meta details trace hne hsup hext
    refine ⟨iu, meta2, tr, key, hpost, hmeta hsave, ?_⟩
    rcases hkey with ⟨ext, he, hk⟩ | hk
    · exact Or.inl (hk ▸ isValidImageFile_imgkey _ _ _ hhex he)
    · exact Or.inr ⟨hk ▸ strStartsWith_append4 _ _ _ _ _,
        hk ▸ endsWith_append_self _ _, hk ▸ isValidImageFile_phkey _ _ hphex⟩
  · intro k m o st files hval e he heq
    have hv := (mem_listImages_filename he).2
    rw [heq, hval] at hv
    cases hv

/-- Witness for C9: a concrete timeout-fallback scrape of a LimeRoad URL, with
the download environment carrying hex suffixes, persists the record and the
listing exclusion holds. -/
theorem extract_metadata_key_and_listing_exclusion_witness :
    (∃ iu meta2 tr key,
      postExtractUrl (some (some "https://www.limeroad.com/prod123"))
        ⟨.timeout, ⟨true, none, "abcd", true⟩, "beef", true⟩ "http://localhost:3000" [] =
        (.ok iu "https://www.limeroad.com/prod123" "Prod123" "Product from LimeRoad",
         meta2, tr) ∧
      meta2 = setKey [] key
        ⟨key, some "https://www.limeroad.com/prod123", some "Prod123",
         some "Product from LimeRoad", if ("" : String) ≠ "" then some "" else none⟩ ∧
      (isValidImageFile key = true ∨
        (strStartsWith key "placeholder_" = true ∧ strEndsWith key ".txt" = true ∧
         isValidImageFile key = false))) ∧
    (∀ (k : String) (m : MetadataMap) (o : String) (st : String → FileStat)
        (files : List String), isValidImageFile k = false →
        ∀ e ∈ listImages m o st files, e.filename ≠ k) :=
  extract_metadata_key_and_listing_exclusion "https://www.limeroad.com/prod123"
    ⟨.timeout, ⟨true, none, "abcd", true⟩, "beef", true⟩ "http://localhost:3000" []
    ⟨"Prod123", "Product from LimeRoad", "", "https://www.limeroad.com/prod123"⟩
    ["https://www.limeroad.com/prod123"]
    (by decide) (by decide) (by decide) rfl
    (by unfold isHexSuffix; exact (by decide))
    (by unfold isHexSuffix; exact (by decide))
